import Mathlib

/-!
Verification of the sudoku repository (files `sudoku.py` and `smarter_sudoku.py`).

The development shallowly embeds both Python files:

* `Smarter.*` embeds `smarter_sudoku.py` (1-indexed cells, a deductive
  strategy engine over a mutable grid of candidate sets plus a placed-value
  map; mutation is modelled by explicit state passing, `ValueError` by
  `Except String`).
* `Search.*` embeds `sudoku.py` (0-indexed cells, a backtracking search
  engine over a `ChainMap` of dict layers above the shared module-level
  `defaultdict` `blank_grid`; the `ChainMap` is modelled as a list of
  association-list layers over a base association list, and the
  `defaultdict`'s materialisation of default values on reads is modelled
  explicitly by `cmGet` returning the updated state).

Python `set` iteration order is unspecified; wherever the code iterates a
set we iterate a sorted list of the corresponding `Finset` (for sets of
small ints CPython in fact iterates in ascending order).  Python dict
iteration is insertion order; `smarter_sudoku.py`'s grid dict is built in
row-major order, which `allCellsList` reproduces.
-/

/-- Cells are (row, column) pairs of naturals, as in both Python files. -/
abbrev Cell : Type := ℕ × ℕ

/-- Lexicographic order on cells, used to iterate Python sets of cells in a
deterministic order. -/
def cellLe (p q : Cell) : Prop := p.1 < q.1 ∨ (p.1 = q.1 ∧ p.2 ≤ q.2)

instance : DecidableRel cellLe := fun p q =>
  inferInstanceAs (Decidable (p.1 < q.1 ∨ (p.1 = q.1 ∧ p.2 ≤ q.2)))

instance : IsTrans Cell cellLe where
  trans := by
    rintro ⟨a, b⟩ ⟨c, d⟩ ⟨e, f⟩ (h | ⟨h, h'⟩) (g | ⟨g, g'⟩) <;> simp_all [cellLe] <;> omega

instance : IsAntisymm Cell cellLe where
  antisymm := by
    rintro ⟨a, b⟩ ⟨c, d⟩ (h | ⟨h, h'⟩) (g | ⟨g, g'⟩) <;> simp_all <;> omega

instance : IsTotal Cell cellLe where
  total := by
    rintro ⟨a, b⟩ ⟨c, d⟩
    simp only [cellLe]
    omega

/-- Sorted list of the elements of a finite set.  This is `Finset.sort`,
except built on insertion sort so that it reduces inside the kernel
(`Multiset.sort`'s merge sort is defined by well-founded recursion and
does not); it stands in for Python set iteration. -/
def fsort (r : α → α → Prop) [DecidableRel r] [IsTrans α r] [IsAntisymm α r] [IsTotal α r]
    (s : Finset α) : List α :=
  Quot.liftOn s.val (List.insertionSort r) fun l1 l2 h =>
    List.eq_of_perm_of_sorted
      ((List.perm_insertionSort r l1).trans (h.trans (List.perm_insertionSort r l2).symm))
      (List.sorted_insertionSort r l1) (List.sorted_insertionSort r l2)

theorem fsort_perm (r : α → α → Prop) [DecidableRel r] [IsTrans α r] [IsAntisymm α r]
    [IsTotal α r] (s : Finset α) : (fsort r s : Multiset α) = s.val := by
  obtain ⟨m, hm⟩ := s
  induction m using Quot.inductionOn with
  | _ l => exact Quot.sound (List.perm_insertionSort r l)

theorem mem_fsort (r : α → α → Prop) [DecidableRel r] [IsTrans α r] [IsAntisymm α r]
    [IsTotal α r] {s : Finset α} {a : α} : a ∈ fsort r s ↔ a ∈ s := by
  rw [← Multiset.mem_coe, fsort_perm]
  rfl

theorem fsort_nodup (r : α → α → Prop) [DecidableRel r] [IsTrans α r] [IsAntisymm α r]
    [IsTotal α r] (s : Finset α) : (fsort r s).Nodup := by
  have h : ((fsort r s : Multiset α)).Nodup := by rw [fsort_perm]; exact s.nodup
  exact h

theorem fsort_length (r : α → α → Prop) [DecidableRel r] [IsTrans α r] [IsAntisymm α r]
    [IsTotal α r] (s : Finset α) : (fsort r s).length = s.card := by
  have h := congrArg Multiset.card (fsort_perm r s)
  simpa using h

/-- Sorted list of a finite set of cells (Python set iteration order). -/
def cellList (s : Finset Cell) : List Cell := fsort cellLe s

theorem mem_cellList {s : Finset Cell} {c : Cell} : c ∈ cellList s ↔ c ∈ s :=
  mem_fsort cellLe

theorem cellList_nodup (s : Finset Cell) : (cellList s).Nodup :=
  fsort_nodup cellLe s

/-- Sorted list of a finite set of naturals (Python set iteration order). -/
def natList (s : Finset ℕ) : List ℕ := fsort (· ≤ ·) s

theorem mem_natList {s : Finset ℕ} {a : ℕ} : a ∈ natList s ↔ a ∈ s :=
  mem_fsort (· ≤ ·)

theorem natList_nodup (s : Finset ℕ) : (natList s).Nodup :=
  fsort_nodup (· ≤ ·) s

theorem fsort_sorted (r : α → α → Prop) [DecidableRel r] [IsTrans α r] [IsAntisymm α r]
    [IsTotal α r] (s : Finset α) : (fsort r s).Sorted r := by
  obtain ⟨m, hm⟩ := s
  induction m using Quot.inductionOn with
  | _ l => exact List.sorted_insertionSort r l

theorem natList_sorted (s : Finset ℕ) : (natList s).Sorted (· ≤ ·) :=
  fsort_sorted (· ≤ ·) s

namespace Smarter

/-- `rows = range(1, 10)` from `smarter_sudoku.py`. -/
def rowsList : List ℕ := List.range' 1 9

/-- `cols = range(1, 10)` from `smarter_sudoku.py`. -/
def colsList : List ℕ := List.range' 1 9

/-- `boxes = [(br, bc) for bc in range(1, 4) for br in range(1, 4)]`. -/
def boxes : List Cell :=
  (List.range' 1 3).flatMap fun bc => (List.range' 1 3).map fun br => (br, bc)

/-- `box_position(row, col) = (ceil(row/3), ceil(col/3))`. -/
def box_position (row col : ℕ) : Cell := ((row + 2) / 3, (col + 2) / 3)

/-- `box_cell_axes(box_idx) = range((box_idx-1)*3+1, box_idx*3+1)`. -/
def box_cell_axes (box_idx : ℕ) : List ℕ := List.range' ((box_idx - 1) * 3 + 1) 3

/-- `box_cells(box_position)`: the 9 cells of a box, row-major. -/
def box_cells (bp : Cell) : List Cell :=
  (box_cell_axes bp.1).flatMap fun row => (box_cell_axes bp.2).map fun col => (row, col)

/-- `affected_positions(row, col)`: the generator's yields, in order — the
other 8 cells of the column, the other 8 cells of the row, then the box
cells sharing neither the row nor the column. -/
def affected_positions (row col : ℕ) : List Cell :=
  ((List.range' 1 9).filter (fun r => r ≠ row)).map (fun r => (r, col)) ++
  ((List.range' 1 9).filter (fun c => c ≠ col)).map (fun c => (row, c)) ++
  (box_cells (box_position row col)).filter (fun p => p.1 ≠ row ∧ p.2 ≠ col)

/-- `SudokuGrid.__init__`: candidate grid plus placed-value map.  The dict
`self.grid` maps every cell to `set(range(1, 10))` initially;
`self.placed_grid` starts empty. -/
structure SmGrid where
  placed : Cell → Option ℕ
  grid : Cell → Finset ℕ

/-- The freshly constructed grid of `SudokuGrid.__init__`. -/
def initialGrid : SmGrid where
  placed := fun _ => none
  grid := fun _ => Finset.Icc 1 9

/-- The 81 keys of `self.grid`, in dict insertion order (row-major). -/
def allCellsList : List Cell :=
  (List.range' 1 9).flatMap fun r => (List.range' 1 9).map fun c => (r, c)

/-- The 81 cells as a finite set. -/
def allCells : Finset Cell := Finset.Icc 1 9 ×ˢ Finset.Icc 1 9

/-- Overwrite one cell's candidate set. -/
def updateGrid (g : SmGrid) (p : Cell) (s : Finset ℕ) : SmGrid :=
  { g with grid := Function.update g.grid p s }

/-- The loop body of `SudokuGrid.place`: for each affected position check the
two contradiction conditions (`ValueError` in the source, `Except.error`
here), then `discard` the value from the position's candidate set. -/
def placeLoop (value : ℕ) : SmGrid → List Cell → Except String SmGrid
  | g, [] => .ok g
  | g, p :: ps =>
    if g.placed p = some value then
      .error "value already placed at an affected position"
    else if g.grid p = {value} then
      .error "value is the only option for an affected position"
    else
      placeLoop value (updateGrid g p ((g.grid p).erase value)) ps

/-- `SudokuGrid.place(row, col, value)`: record the placement, clear the
cell's candidate set, then run the affected-positions loop. -/
def place (g : SmGrid) (row col value : ℕ) : Except String SmGrid :=
  placeLoop value
    { placed := Function.update g.placed (row, col) (some value)
      grid := Function.update g.grid (row, col) ∅ }
    (affected_positions row col)

/-- `SudokuGrid.remove(row, col, value)`: `set.remove` raises `KeyError`
when the value is absent. -/
def remove (g : SmGrid) (row col value : ℕ) : Except String SmGrid :=
  if value ∈ g.grid (row, col) then
    .ok (updateGrid g (row, col) ((g.grid (row, col)).erase value))
  else
    .error "KeyError"

/-- The two action objects `Place` and `Remove`. -/
inductive Action : Type
  | Place : ℕ → ℕ → ℕ → Action
  | Remove : ℕ → ℕ → ℕ → Action
deriving DecidableEq, Repr

/-- `Place.perform` / `Remove.perform`. -/
def Action.perform : Action → SmGrid → Except String SmGrid
  | .Place r c v, g => place g r c v
  | .Remove r c v, g => remove g r c v

/-- The cells of `self.row(row)`, in yield order. -/
def rowCells (row : ℕ) : List Cell := (List.range' 1 9).map fun c => (row, c)

/-- The cells of `self.col(col)`, in yield order. -/
def colCells (col : ℕ) : List Cell := (List.range' 1 9).map fun r => (r, col)

/-- `SudokuGrid.remaining_values(cells)`: union of the candidate sets. -/
def remaining_values (g : SmGrid) (cells : List Cell) : Finset ℕ :=
  cells.foldr (fun p acc => g.grid p ∪ acc) ∅

/-- `SudokuGrid.locations_for(value, cells)`: the cells whose candidate set
contains the value. -/
def locations_for (g : SmGrid) (value : ℕ) (cells : List Cell) : Finset Cell :=
  (cells.filter (fun p => value ∈ g.grid p)).toFinset

/-- The unique element of a singleton candidate set, when there is one
(the `(value,) = values` destructurings in the source). -/
def theSingle (s : Finset ℕ) : Option ℕ :=
  match natList s with
  | [v] => some v
  | _ => none

/-- Strategy 1, `find_only_one_digit_in_cell`: scan `self.grid.items()`
in insertion (row-major) order for singleton candidate sets. -/
def find_only_one_digit_in_cell (g : SmGrid) : List Action :=
  allCellsList.filterMap fun p =>
    (theSingle (g.grid p)).map fun v => Action.Place p.1 p.2 v

/-- Strategy 2, `find_only_one_place_in_row`: for each row, a digit having
exactly one candidate column is placed there.  The occurrence map is
iterated in ascending digit order (Python iterates it in key-insertion
order; the set of emitted actions is the same). -/
def find_only_one_place_in_row (g : SmGrid) : List Action :=
  (List.range' 1 9).flatMap fun row =>
    (List.range' 1 9).filterMap fun v =>
      match (List.range' 1 9).filter (fun c => v ∈ g.grid (row, c)) with
      | [c] => some (Action.Place row c v)
      | _ => none

/-- Strategy 3, `find_only_one_place_in_col`: symmetric to strategy 2. -/
def find_only_one_place_in_col (g : SmGrid) : List Action :=
  (List.range' 1 9).flatMap fun col =>
    (List.range' 1 9).filterMap fun v =>
      match (List.range' 1 9).filter (fun r => v ∈ g.grid (r, col)) with
      | [r] => some (Action.Place r col v)
      | _ => none

/-- Strategy 4, `find_only_one_place_in_box`: scan each box's cells for
singleton candidate sets (the source re-checks `len(values) == 1` per
cell, it does not count a digit's occurrences across the box). -/
def find_only_one_place_in_box (g : SmGrid) : List Action :=
  boxes.flatMap fun b =>
    (box_cells b).filterMap fun p =>
      (theSingle (g.grid p)).map fun v => Action.Place p.1 p.2 v

/-- Strategy 5, `find_digits_in_one_box_row`: if all of a box's candidate
cells for a digit lie in one row, remove the digit from that row's cells
outside the box. -/
def find_digits_in_one_box_row (g : SmGrid) : List Action :=
  boxes.flatMap fun b =>
    (natList ((Finset.Icc 1 9).filter
        (fun d => d ∈ remaining_values g (box_cells b)))).flatMap fun d =>
      match (box_cell_axes b.1).filter
          (fun row => (box_cell_axes b.2).any (fun col => d ∈ g.grid (row, col))) with
      | [row] =>
        (List.range' 1 9).filterMap fun col =>
          if box_position row col = b then none
          else if d ∈ g.grid (row, col) then some (Action.Remove row col d)
          else none
      | _ => []

/-- Strategy 6, `find_digits_in_one_box_col`: symmetric to strategy 5. -/
def find_digits_in_one_box_col (g : SmGrid) : List Action :=
  boxes.flatMap fun b =>
    (natList ((Finset.Icc 1 9).filter
        (fun d => d ∈ remaining_values g (box_cells b)))).flatMap fun d =>
      match (box_cell_axes b.2).filter
          (fun col => (box_cell_axes b.1).any (fun row => d ∈ g.grid (row, col))) with
      | [col] =>
        (List.range' 1 9).filterMap fun row =>
          if box_position row col = b then none
          else if d ∈ g.grid (row, col) then some (Action.Remove row col d)
          else none
      | _ => []

/-- `itertools.combinations(l, 2)` on a list: ordered pairs, first
component preceding the second. -/
def combos2 : List ℕ → List (ℕ × ℕ)
  | [] => []
  | x :: xs => (xs.map fun y => (x, y)) ++ combos2 xs

/-- The shared body of the three `find_subsets_in_*` strategies, on a given
region (row, column, or box cell list).  Mirrors the source: candidate
pairs whose common locations number exactly 2 trigger the naked-pair branch
(both common cells' candidate sets equal the pair, either digit occurring
elsewhere) and the hidden-pair branch (both digits having exactly two
locations). -/
def find_subsets_in (g : SmGrid) (cells : List Cell) : List Action :=
  let rv := remaining_values g cells
  if rv.card < 2 then []
  else
    (combos2 (natList rv)).flatMap fun fs =>
      let a := fs.1
      let b := fs.2
      let fl := locations_for g a cells
      let sl := locations_for g b cells
      let common := (fl ∩ sl).filter (fun p => ({a, b} : Finset ℕ) ⊆ g.grid p)
      if common.card = 2 then
        match cellList common with
        | [p1, p2] =>
          (if 2 < fl.card ∨ 2 < sl.card then
            if g.grid p1 = {a, b} ∧ g.grid p2 = {a, b} then
              ((cellList (fl \ common)).map fun p => Action.Remove p.1 p.2 a) ++
              ((cellList (sl \ common)).map fun p => Action.Remove p.1 p.2 b)
            else []
          else []) ++
          (if fl.card = 2 ∧ sl.card = 2 then
            ((natList (g.grid p1 \ {a, b})).map fun v => Action.Remove p1.1 p1.2 v) ++
            ((natList (g.grid p2 \ {a, b})).map fun v => Action.Remove p2.1 p2.2 v)
          else [])
        | _ => []
      else []

/-- Strategy 7, `find_subsets_in_row`. -/
def find_subsets_in_row (g : SmGrid) : List Action :=
  (List.range' 1 9).flatMap fun row => find_subsets_in g (rowCells row)

/-- Strategy 8, `find_subsets_in_col`. -/
def find_subsets_in_col (g : SmGrid) : List Action :=
  (List.range' 1 9).flatMap fun col => find_subsets_in g (colCells col)

/-- Strategy 9, `find_subsets_in_box`. -/
def find_subsets_in_box (g : SmGrid) : List Action :=
  boxes.flatMap fun b => find_subsets_in g (box_cells b)

/-- `self.strategies`, in priority order. -/
def strategyLists (g : SmGrid) : List (List Action) :=
  [find_only_one_digit_in_cell g,
   find_only_one_place_in_row g,
   find_only_one_place_in_col g,
   find_only_one_place_in_box g,
   find_digits_in_one_box_row g,
   find_digits_in_one_box_col g,
   find_subsets_in_row g,
   find_subsets_in_col g,
   find_subsets_in_box g]

/-- One scan of `SudokuGrid.find`'s inner loop: `next(strategy(), None)` for
each strategy in order, keeping the first action found. -/
def firstAction (g : SmGrid) : Option Action :=
  (strategyLists g).findSome? List.head?

/-- `SudokuGrid.find` with explicit fuel: `none` means the fuel ran out
(the source's `while True` loop made one more iteration than allowed for),
`some (.ok g)` means the for-else `return` fired after a pass in which no
strategy yielded, `some (.error e)` means `place`/`remove` raised. -/
def findFuel : ℕ → SmGrid → Option (Except String SmGrid)
  | 0, _ => none
  | n + 1, g =>
    match firstAction g with
    | none => some (.ok g)
    | some a =>
      match a.perform g with
      | .error e => some (.error e)
      | .ok g' => findFuel n g'

/-- Total number of candidates in the grid, the termination measure. -/
def candCount (g : SmGrid) : ℕ := ∑ p ∈ allCells, (g.grid p).card

end Smarter

namespace Search

/-- `SQS = SUBSQUARE_SIZE = 3`. -/
def SQS : ℕ := 3

/-- `GRID_SIZE = SUBSQUARE_SIZE ** 2`. -/
def GRID_SIZE : ℕ := SQS ^ 2

/-- `grid_indexes = [(i, j) for j in range(GRID_SIZE) for i in range(GRID_SIZE)]`
(column-major). -/
def grid_indexes : List Cell :=
  (List.range GRID_SIZE).flatMap fun j => (List.range GRID_SIZE).map fun i => (i, j)

/-- `subsq_range(idx) = range(floor(idx/SQS)*SQS, ceil(idx/SQS)*SQS)`.
Note `ceil`, not `floor + 1`: for `idx` divisible by 3 the range is empty. -/
def subsq_range (idx : ℕ) : List ℕ :=
  List.range' (idx / SQS * SQS) ((idx + SQS - 1) / SQS * SQS - idx / SQS * SQS)

/-- `other_cells_affected(cell)`: the column, the row, and the subsquare
product of `subsq_range` on each axis, accumulated into one set
(the set includes `cell` itself, as the source's docstring notes). -/
def other_cells_affected (cell : Cell) : Finset Cell :=
  ((List.range GRID_SIZE).map fun i => ((i, cell.2) : Cell)).toFinset ∪
  ((List.range GRID_SIZE).map fun i => ((cell.1, i) : Cell)).toFinset ∪
  ((subsq_range cell.1).flatMap fun r => (subsq_range cell.2).map fun c => ((r, c) : Cell)).toFinset

/-- `read_grid(grid)`: `((rowidx, colidx), int(cell))` for every non-space
character, row-major. -/
def read_grid (grid : List (List Char)) : List (Cell × ℕ) :=
  grid.enum.flatMap fun ri =>
    ri.2.enum.filterMap fun ci =>
      if ci.2 = ' ' then none
      else some (((ri.1, ci.1) : Cell), ci.2.toNat - '0'.toNat)

/-- A Python dict, as an association list (`List.lookup` finds the live
binding). -/
abbrev Layer : Type := List (Cell × Finset ℕ)

/-- The `ChainMap({}, …overlays… , blank_grid)` backing `self.grid`:
`overlays` are the explicit dict layers (`maps[:-1]`), `base` is the
current contents of the module-level `defaultdict` `blank_grid`
(`maps[-1]`), whose default value for an absent key is `set(range(1, 10))`. -/
structure CM where
  overlays : List Layer
  base : Layer

/-- The `defaultdict`'s default factory, `set(range(1, 10))`. -/
def blankDefault : Finset ℕ := Finset.Icc 1 9

/-- Dict write: replace the existing binding, else add one. -/
def updateA : Layer → Cell → Finset ℕ → Layer
  | [], c, s => [(c, s)]
  | e :: t, c, s => if e.1 = c then (c, s) :: t else e :: updateA t c s

/-- Look a cell up through the overlay layers, topmost first. -/
def lookupLayers : List Layer → Cell → Option (Finset ℕ)
  | [], _ => none
  | l :: ls, c => (List.lookup c l).or (lookupLayers ls c)

/-- The candidate set `blank_grid` would answer for a cell: its stored
binding, else the materialised default. -/
def baseVal (b : Layer) (c : Cell) : Finset ℕ := (List.lookup c b).getD blankDefault

/-- The pure view of `self.grid[c]` (what the `ChainMap` lookup returns). -/
def cmView (g : CM) (c : Cell) : Finset ℕ := (lookupLayers g.overlays c).getD (baseVal g.base c)

/-- `self.grid[c]` as executed: when the lookup falls through to
`blank_grid`, the `defaultdict` materialises the default value under the
key, mutating the shared base dict. -/
def cmGet (g : CM) (c : Cell) : Finset ℕ × CM :=
  match lookupLayers g.overlays c with
  | some s => (s, g)
  | none =>
    match List.lookup c g.base with
    | some s => (s, g)
    | none => (blankDefault, ⟨g.overlays, (c, blankDefault) :: g.base⟩)

/-- `self.grid[c] = s`: `ChainMap.__setitem__` writes to `maps[0]`. -/
def cmWrite (g : CM) (c : Cell) (s : Finset ℕ) : CM :=
  match g.overlays with
  | [] => ⟨[[(c, s)]], g.base⟩
  | l :: ls => ⟨updateA l c s :: ls, g.base⟩

/-- One iteration of `set_cell`'s loop:
`self.grid[other_cell] = self.grid[other_cell] - {value}`. -/
def removeAt (value : ℕ) (gc : CM) (oc : Cell) : CM :=
  match cmGet gc oc with
  | (s, gc2) => cmWrite gc2 oc (s \ {value})

/-- `SudokuGrid.set_cell(cell, value)`: remove the value from every affected
cell's candidate set (one dict read and write per affected cell), then bind
the cell itself to the singleton. -/
def set_cell (g : CM) (cell : Cell) (value : ℕ) : CM :=
  cmWrite ((cellList (other_cells_affected cell)).foldl (removeAt value) g) cell {value}

/-- Entering `search_subgrid`: `self.grid = self.grid.new_child()`. -/
def enterScope (g : CM) : CM := ⟨[] :: g.overlays, g.base⟩

/-- Exiting `search_subgrid`: `self.grid = self.grid.parents`. -/
def exitScope (g : CM) : CM := ⟨g.overlays.tail, g.base⟩

/-- `SudokuGrid.__init__(grid)`: a fresh empty dict chained over the shared
`blank_grid`, then `set_cell` for every pair the argument yields. -/
def mkGrid (base : Layer) (pairs : List (Cell × ℕ)) : CM :=
  pairs.foldl (fun g p => set_cell g p.1 p.2) ⟨[[]], base⟩

/-- The `for candidate_value in self.grid[cell_to_set]` loop of
`solutions`: each iteration opens a scope, sets the cell, runs the
recursion on the remaining cells (the continuation `recur`), and closes
the scope. -/
def solutionsLoop (recur : CM → List CM × CM) (c : Cell) : CM → List ℕ → List CM × CM
  | g, [] => ([], g)
  | g, v :: vs =>
    match recur (set_cell (enterScope g) c v) with
    | (sols1, g1) =>
      match solutionsLoop recur c (exitScope g1) vs with
      | (sols2, g2) => (sols1 ++ sols2, g2)

/-- `SudokuGrid.solutions(remaining_cells)`: depth-first enumeration.  The
returned list holds the grid state at each `yield self` (the generator is
paused inside its `with` blocks, so the yielded view carries the full
overlay stack); the second component is the state after the generator is
exhausted (all scopes exited, reads materialised in the base). -/
def solutions : List Cell → CM → List CM × CM
  | [], g => ([g], g)
  | c :: rest, g =>
    match cmGet g c with
    | (cands, g1) => solutionsLoop (solutions rest) c g1 (natList cands)

/-- The character `display` prints for one cell:
`str(next(iter(value))) if len(value) == 1 else '.'`. -/
def cellChar (s : Finset ℕ) : Char :=
  match natList s with
  | [v] => Char.ofNat ('0'.toNat + v)
  | _ => '.'

/-- `SudokuGrid.display()`: the formatted rows (reads are modelled with the
pure view; a read of a missing key only materialises the default in
`blank_grid`, which does not change any view). -/
def display (g : CM) : List (List Char) :=
  (List.range GRID_SIZE).map fun r =>
    (List.range GRID_SIZE).map fun c => cellChar (cmView g (r, c))

/-- `solve(grid)`: display the first solution if one exists, else `None`.
The base parameter is the current contents of the module-level
`blank_grid`. -/
def solve (base : Layer) (grid : List (List Char)) : Option (List (List Char)) :=
  match (solutions grid_indexes (mkGrid base (read_grid grid))).1 with
  | [] => none
  | s :: _ => some (display s)

/-- Every stored value of the shared `blank_grid` dict is the full candidate
set (the module-level invariant: reads materialise the default, writes all
land in the `ChainMap`'s child layers). -/
def baseBlank (b : Layer) : Prop := ∀ e ∈ b, e.2 = blankDefault

/-- Two cells lie in the same subsquare: axis indices in the same
`SQS`-block (the intended box relation that `subsq_range`'s docstring
describes). -/
def sameSubsquare (p q : Cell) : Prop :=
  p.1 / SQS = q.1 / SQS ∧ p.2 / SQS = q.2 / SQS

instance (p q : Cell) : Decidable (sameSubsquare p q) :=
  inferInstanceAs (Decidable (p.1 / SQS = q.1 / SQS ∧ p.2 / SQS = q.2 / SQS))

/-- One state-changing operation of the search module: a `set_cell` call on
the current instance, a full `solutions` enumeration on the current
instance, or the construction of a new `SudokuGrid` over the shared
`blank_grid` (which becomes the current instance). -/
inductive SOp : Type
  | setc : Cell → ℕ → SOp
  | search : List Cell → SOp
  | construct : List (Cell × ℕ) → SOp

/-- Apply one operation to the shared state. -/
def applySOp (g : CM) : SOp → CM
  | .setc c v => set_cell g c v
  | .search cells => (solutions cells g).2
  | .construct pairs => mkGrid g.base pairs

/-- Apply a sequence of operations. -/
def applyOps (g : CM) (ops : List SOp) : CM := ops.foldl applySOp g

/-- The base dict evolves compatibly: the answer `blank_grid` gives for any
key is unchanged, and the all-default invariant is preserved. -/
def basePres (b b' : Layer) : Prop :=
  (∀ q, baseVal b' q = baseVal b q) ∧ (baseBlank b → baseBlank b')

/-- A sample operation sequence (used to witness the `blank_grid`
invariant theorem): construct an instance with one placed value, run a
small search on it, then call `set_cell` directly. -/
def opsExample : List SOp :=
  [SOp.construct [((0, 0), 1)], SOp.search [(0, 0)], SOp.setc (1, 1) 2]

end Search

namespace Smarter

/-- Whether a `place`/`remove` call raised (`ValueError`/`KeyError`). -/
def failed : Except String SmGrid → Bool
  | .error _ => true
  | .ok _ => false

/-- The grid obtained by a successful `place(1, 1, 5)` on a fresh grid
(used to witness the placement-propagation theorem). -/
def placedExample : SmGrid :=
  match place initialGrid 1 1 5 with
  | .ok g => g
  | .error _ => initialGrid

/-- A grid whose cell (1, 2) has candidate set exactly `{5}` (used to
witness the contradiction-detection theorem: placing 5 at (1, 1) must
raise). -/
def conflictExample : SmGrid := updateGrid initialGrid (1, 2) {5}

/-- An action is applicable to a grid: its target cell is one of the 81
grid cells and its value is among that cell's candidates. -/
def actionOk (g : SmGrid) : Action → Prop
  | .Place r c v => ((r, c) : Cell) ∈ allCells ∧ v ∈ g.grid (r, c)
  | .Remove r c v => ((r, c) : Cell) ∈ allCells ∧ v ∈ g.grid (r, c)

/-- A grid on which the naked-pair premises hold for digits 1, 2 in row 1
(cell (1, 1) is exactly the pair, the two digits share exactly the two
cells (1, 1), (1, 2), and digit 1 also occurs at (1, 3)) yet the second
shared cell carries the extra candidate 3. -/
def cexGrid : SmGrid where
  placed := fun _ => none
  grid := fun p =>
    if p = (1, 1) then {1, 2}
    else if p = (1, 2) then {1, 2, 3}
    else if p = (1, 3) then {1, 4, 5}
    else if p.1 = 1 then {4, 5, 6, 7, 8, 9}
    else Finset.Icc 1 9

/-- The same configuration with both shared cells exactly the pair
`{1, 2}` — the genuine naked-pair situation. -/
def cexGrid2 : SmGrid where
  placed := fun _ => none
  grid := fun p =>
    if p = (1, 1) then {1, 2}
    else if p = (1, 2) then {1, 2}
    else if p = (1, 3) then {1, 4, 5}
    else if p.1 = 1 then {4, 5, 6, 7, 8, 9}
    else Finset.Icc 1 9

/-- A fresh grid whose cell (1, 1) has been narrowed to the single
candidate 5, so strategy 1 fires on it. -/
def singletonExample : SmGrid := updateGrid initialGrid (1, 1) {5}

/-- The grid obtained by performing that `Place(1, 1, 5)`. -/
def placedSingleton : SmGrid :=
  match (Action.Place 1 1 5).perform singletonExample with
  | .ok g => g
  | .error _ => singletonExample

/-- The grid with every candidate set empty: the cheap-to-evaluate fixed
point of the driver loop used to witness the termination theorem. -/
def emptyExample : SmGrid where
  placed := fun _ => none
  grid := fun _ => ∅

end Smarter

/-- The `IMPOSSIBLE_GRID` literal of `sudoku.py`'s tests: first row
`"111111111"`, the remaining 8 rows nine spaces each. -/
def IMPOSSIBLE_GRID : List (List Char) :=
  String.toList "111111111" :: List.replicate 8 (String.toList "         ")

/-- The `SOLVED_TEST_GRID` literal of `sudoku.py`'s tests (a complete valid
solution). -/
def SOLVED_TEST_GRID : List (List Char) :=
  ["534178926", "672943851", "189652473", "391724568", "768519342",
   "425386197", "947231685", "216895734", "853467219"].map String.toList

/-- The nine digit characters a fully filled grid may contain. -/
def digitChars : List Char := String.toList "123456789"

/-- The numeric value `int(ch)` of the character at (row, col) of a grid of
lines. -/
def dval (lines : List (List Char)) (r c : ℕ) : ℕ :=
  ((lines.getD r []).getD c ' ').toNat - '0'.toNat

/-- The nine values of one row of the input lines. -/
def rowVals (lines : List (List Char)) (r : ℕ) : List ℕ :=
  (List.range 9).map fun c => dval lines r c

/-- The nine values of one column of the input lines. -/
def colVals (lines : List (List Char)) (c : ℕ) : List ℕ :=
  (List.range 9).map fun r => dval lines r c

/-- The nine values of one 3×3 box (indexed 0..8, row-major over boxes) of
the input lines. -/
def boxVals (lines : List (List Char)) (b : ℕ) : List ℕ :=
  (List.range 9).map fun i => dval lines (3 * (b / 3) + i / 3) (3 * (b % 3) + i % 3)

/-- A sequence of lines is a fully filled, self-consistent grid: 9 rows of
9 digit characters whose rows, columns and boxes are each a permutation of
1..9. -/
def selfConsistent (lines : List (List Char)) : Prop :=
  lines.length = 9 ∧ (∀ row ∈ lines, row.length = 9) ∧
  (∀ row ∈ lines, ∀ ch ∈ row, ch ∈ digitChars) ∧
  (∀ r < 9, (rowVals lines r : Multiset ℕ) = (List.range' 1 9 : List ℕ)) ∧
  (∀ c < 9, (colVals lines c : Multiset ℕ) = (List.range' 1 9 : List ℕ)) ∧
  (∀ b < 9, (boxVals lines b : Multiset ℕ) = (List.range' 1 9 : List ℕ))

/-!  Theorems.  -/

namespace Smarter

theorem affected_facts : ∀ r ∈ Finset.Icc (1 : ℕ) 9, ∀ c ∈ Finset.Icc (1 : ℕ) 9,
    (affected_positions r c).length = 20 ∧ (affected_positions r c).Nodup ∧
    (r, c) ∉ affected_positions r c ∧
    ∀ p ∈ affected_positions r c, p ∈ allCells := by decide

theorem updateGrid_placed (g : SmGrid) (p : Cell) (s : Finset ℕ) :
    (updateGrid g p s).placed = g.placed := rfl

theorem updateGrid_grid_ne (g : SmGrid) {p q : Cell} (s : Finset ℕ) (h : q ≠ p) :
    (updateGrid g p s).grid q = g.grid q := by
  simp [updateGrid, Function.update, h]

theorem placeLoop_ok_grid {v : ℕ} (l : List Cell) :
    ∀ (g g' : SmGrid), placeLoop v g l = .ok g' → l.Nodup →
      (∀ q, q ∉ l → g'.grid q = g.grid q ∧ g'.placed q = g.placed q) ∧
      ∀ p ∈ l, v ∉ g'.grid p := by
  induction l with
  | nil =>
    intro g g' h _
    simp only [placeLoop, Except.ok.injEq] at h
    subst h
    exact ⟨fun q _ => ⟨rfl, rfl⟩, by simp⟩
  | cons p ps ih =>
    intro g g' h hnd
    simp only [placeLoop] at h
    split at h
    · exact absurd h (by simp)
    split at h
    · exact absurd h (by simp)
    have hnd' := (List.nodup_cons.mp hnd).2
    have hp : p ∉ ps := (List.nodup_cons.mp hnd).1
    obtain ⟨huntouched, hmem⟩ := ih _ _ h hnd'
    constructor
    · intro q hq
      have hq1 : q ≠ p := fun hqp => hq (hqp ▸ List.mem_cons_self p ps)
      have hq2 : q ∉ ps := fun hq2 => hq (List.mem_cons_of_mem p hq2)
      obtain ⟨hgr, hpl⟩ := huntouched q hq2
      exact ⟨hgr.trans (updateGrid_grid_ne g _ hq1), hpl⟩
    · intro p' hp'
      rcases List.mem_cons.mp hp' with h1 | h1
      · subst h1
        have := (huntouched p' hp).1
        rw [this]
        simp [updateGrid, Function.update]
      · exact hmem p' h1

theorem placeLoop_failed_iff {v : ℕ} (l : List Cell) :
    ∀ g : SmGrid, l.Nodup →
      (failed (placeLoop v g l) = true ↔
        ∃ p ∈ l, g.placed p = some v ∨ g.grid p = {v}) := by
  induction l with
  | nil =>
    intro g _
    simp [placeLoop, failed]
  | cons p ps ih =>
    intro g hnd
    have hp : p ∉ ps := (List.nodup_cons.mp hnd).1
    have hnd' := (List.nodup_cons.mp hnd).2
    simp only [placeLoop]
    split
    · simp only [failed, true_iff]
      exact ⟨p, List.mem_cons_self p ps, Or.inl (by assumption)⟩
    split
    · simp only [failed, true_iff]
      exact ⟨p, List.mem_cons_self p ps, Or.inr (by assumption)⟩
    · rw [ih _ hnd']
      constructor
      · rintro ⟨q, hq, hcond⟩
        refine ⟨q, List.mem_cons_of_mem p hq, ?_⟩
        have hqp : q ≠ p := fun h => hp (h ▸ hq)
        rwa [updateGrid_placed, updateGrid_grid_ne _ _ hqp] at hcond
      · rintro ⟨q, hq, hcond⟩
        rcases List.mem_cons.mp hq with h1 | h1
        · subst h1
          rcases hcond with h2 | h2
          · exact absurd h2 (by assumption)
          · exact absurd h2 (by assumption)
        · refine ⟨q, h1, ?_⟩
          have hqp : q ≠ p := fun h => hp (h ▸ h1)
          rwa [updateGrid_placed, updateGrid_grid_ne _ _ hqp]

end Smarter

/-- Claim C2 (counterexample): the claim that the topology function returns
exactly 20 peers never including the cell fails for `sudoku.py`'s
`other_cells_affected`, whose result at (4, 4) has 21 members and contains
(4, 4) itself. -/
theorem claim2_counterexample :
    (Search.other_cells_affected (4, 4)).card ≠ 20 ∧
    (4, 4) ∈ Search.other_cells_affected (4, 4) := by decide

/-- Claim C2 (amended): the 20-peers/no-self property holds for the
deductive engine's `affected_positions`; the search engine's
`other_cells_affected` instead includes the cell itself and has 21 members
at interior cells such as (4, 4), as its own test asserts. -/
theorem claim2_amended :
    (∀ r ∈ Finset.Icc (1 : ℕ) 9, ∀ c ∈ Finset.Icc (1 : ℕ) 9,
      (Smarter.affected_positions r c).length = 20 ∧
      (Smarter.affected_positions r c).Nodup ∧
      (r, c) ∉ Smarter.affected_positions r c) ∧
    ((4, 4) ∈ Search.other_cells_affected (4, 4) ∧
      (Search.other_cells_affected (4, 4)).card = 21) := by
  exact ⟨fun r hr c hc =>
    ⟨(Smarter.affected_facts r hr c hc).1, (Smarter.affected_facts r hr c hc).2.1,
      (Smarter.affected_facts r hr c hc).2.2.1⟩, by decide⟩

/-- Claim C2 (witness): the amended theorem instantiated at cell (1, 1). -/
theorem claim2_witness :
    (Smarter.affected_positions 1 1).length = 20 ∧
    (Smarter.affected_positions 1 1).Nodup ∧
    (1, 1) ∉ Smarter.affected_positions 1 1 :=
  claim2_amended.1 1 (by decide) 1 (by decide)

/-- Claim C3 (counterexample): in the search variant, `set_cell(c, v)` does
not leave `c`'s candidate set empty (it binds it to the singleton), and a
box peer of `c` — here (1, 1) for cell (0, 0) — can keep `v` as a
candidate, because `subsq_range` returns an empty range for indices
divisible by 3. -/
theorem claim3_counterexample :
    Search.cmView (Search.set_cell ⟨[[]], []⟩ (0, 0) 5) (0, 0) ≠ ∅ ∧
    5 ∈ Search.cmView (Search.set_cell ⟨[[]], []⟩ (0, 0) 5) (1, 1) := by decide

/-- Claim C3 (amended): in the deductive engine, a successful
`place(r, c, v)` leaves `(r, c)`'s candidate set empty and removes `v`
from the candidate set of every affected position.  (In the search
variant, `set_cell` instead sets the cell's own set to the singleton and
removes `v` only from the cells of `other_cells_affected`.) -/
theorem claim3_amended (g : Smarter.SmGrid) (r c v : ℕ) (g' : Smarter.SmGrid)
    (hr : r ∈ Finset.Icc (1 : ℕ) 9) (hc : c ∈ Finset.Icc (1 : ℕ) 9)
    (h : Smarter.place g r c v = .ok g') :
    g'.grid (r, c) = ∅ ∧ ∀ p ∈ Smarter.affected_positions r c, v ∉ g'.grid p := by
  obtain ⟨_, hnd, hself, _⟩ := Smarter.affected_facts r hr c hc
  obtain ⟨huntouched, hmem⟩ := Smarter.placeLoop_ok_grid _ _ _ h hnd
  refine ⟨?_, hmem⟩
  rw [(huntouched (r, c) hself).1]
  simp [Function.update]

/-- Claim C3 (witness): the amended theorem at a fresh grid, placing 5 at
(1, 1). -/
theorem claim3_witness :
    Smarter.placedExample.grid (1, 1) = ∅ ∧
    ∀ p ∈ Smarter.affected_positions 1 1, 5 ∉ Smarter.placedExample.grid p :=
  claim3_amended Smarter.initialGrid 1 1 5 Smarter.placedExample
    (by decide) (by decide) rfl

/-- Claim C4: in the deductive engine, `place(r, c, v)` raises (the
contradiction `ValueError`) exactly when some affected position already has
`v` as its placed value, or has candidate set exactly the singleton of `v`
before the removals. -/
theorem claim4 (g : Smarter.SmGrid) (r c v : ℕ)
    (hr : r ∈ Finset.Icc (1 : ℕ) 9) (hc : c ∈ Finset.Icc (1 : ℕ) 9) :
    Smarter.failed (Smarter.place g r c v) = true ↔
      ∃ p ∈ Smarter.affected_positions r c,
        g.placed p = some v ∨ g.grid p = {v} := by
  obtain ⟨_, hnd, hself, _⟩ := Smarter.affected_facts r hr c hc
  rw [Smarter.place, Smarter.placeLoop_failed_iff _ _ hnd]
  constructor
  · rintro ⟨p, hp, hcond⟩
    refine ⟨p, hp, ?_⟩
    have hpd : p ≠ (r, c) := fun h => hself (h ▸ hp)
    simpa only [Function.update_noteq hpd] using hcond
  · rintro ⟨p, hp, hcond⟩
    refine ⟨p, hp, ?_⟩
    have hpd : p ≠ (r, c) := fun h => hself (h ▸ hp)
    simpa only [Function.update_noteq hpd] using hcond

/-- Claim C4 (witness): placing 5 at (1, 1) raises when the affected cell
(1, 2) has candidate set exactly `{5}`. -/
theorem claim4_witness :
    Smarter.failed (Smarter.place Smarter.conflictExample 1 1 5) = true :=
  (claim4 Smarter.conflictExample 1 1 5 (by decide) (by decide)).mpr
    ⟨(1, 2), by decide, Or.inr (by decide)⟩

set_option maxRecDepth 100000 in
/-- Claim C6: on the impossible grid whose first row is nine 1s, `solve`
finds no solution and returns `None` (the model's `base` argument is the
pristine `blank_grid`). -/
theorem claim6 : Search.solve [] IMPOSSIBLE_GRID = none := by decide

namespace Search

theorem lookup_mem {b : Layer} {q : Cell} {s : Finset ℕ} (h : List.lookup q b = some s) :
    (q, s) ∈ b := by
  induction b with
  | nil => simp [List.lookup] at h
  | cons e t ih =>
    obtain ⟨k, v⟩ := e
    rw [List.lookup] at h
    cases hqe : (q == k) with
    | true =>
      simp only [hqe, Option.some.injEq] at h
      have hq : q = k := by simpa using hqe
      subst hq
      subst h
      exact List.mem_cons_self _ _
    | false =>
      simp only [hqe] at h
      exact List.mem_cons_of_mem _ (ih h)

theorem basePres_refl (b : Layer) : basePres b b := ⟨fun _ => rfl, fun h => h⟩

theorem basePres_trans {a b c : Layer} (h1 : basePres a b) (h2 : basePres b c) :
    basePres a c :=
  ⟨fun q => (h2.1 q).trans (h1.1 q), fun h => h2.2 (h1.2 h)⟩

theorem baseVal_of_blank {b : Layer} (h : baseBlank b) (q : Cell) :
    baseVal b q = blankDefault := by
  unfold baseVal
  cases hl : List.lookup q b with
  | none => rfl
  | some s => simpa using h _ (lookup_mem hl)

theorem cmWrite_tail (g : CM) (c : Cell) (s : Finset ℕ) :
    (cmWrite g c s).overlays.tail = g.overlays.tail := by
  obtain ⟨o, b⟩ := g
  cases o <;> rfl

theorem cmWrite_base (g : CM) (c : Cell) (s : Finset ℕ) : (cmWrite g c s).base = g.base := by
  obtain ⟨o, b⟩ := g
  cases o <;> rfl

theorem cmGet_overlays (g : CM) (c : Cell) : (cmGet g c).2.overlays = g.overlays := by
  unfold cmGet
  rcases h1 : lookupLayers g.overlays c with _ | s
  · rcases h2 : List.lookup c g.base with _ | s <;> rfl
  · rfl

theorem cmGet_basePres (g : CM) (c : Cell) : basePres g.base (cmGet g c).2.base := by
  unfold cmGet
  rcases h1 : lookupLayers g.overlays c with _ | s
  · rcases h2 : List.lookup c g.base with _ | s
    · constructor
      · intro q
        by_cases hq : q = c
        · subst hq
          simp [baseVal, List.lookup, h2]
        · have hqc : (q == c) = false := by simpa using hq
          simp only [baseVal, List.lookup, hqc]
      · intro hb e he
        rcases List.mem_cons.mp he with h | h
        · rw [h]
        · exact hb e h
    · exact basePres_refl _
  · exact basePres_refl _

theorem removeAt_tail (value : ℕ) (g : CM) (oc : Cell) :
    (removeAt value g oc).overlays.tail = g.overlays.tail := by
  unfold removeAt
  rcases h : cmGet g oc with ⟨s, g2⟩
  have : g2.overlays = g.overlays := by
    have := cmGet_overlays g oc
    rw [h] at this
    exact this
  rw [cmWrite_tail, this]

theorem removeAt_basePres (value : ℕ) (g : CM) (oc : Cell) :
    basePres g.base (removeAt value g oc).base := by
  unfold removeAt
  rcases h : cmGet g oc with ⟨s, g2⟩
  have : basePres g.base g2.base := by
    have := cmGet_basePres g oc
    rw [h] at this
    exact this
  rw [cmWrite_base]
  exact this

theorem fold_removeAt_pres (value : ℕ) (l : List Cell) :
    ∀ g : CM, (l.foldl (removeAt value) g).overlays.tail = g.overlays.tail ∧
      basePres g.base (l.foldl (removeAt value) g).base := by
  induction l with
  | nil => exact fun g => ⟨rfl, basePres_refl _⟩
  | cons oc t ih =>
    intro g
    obtain ⟨h1, h2⟩ := ih (removeAt value g oc)
    exact ⟨h1.trans (removeAt_tail value g oc),
      basePres_trans (removeAt_basePres value g oc) h2⟩

theorem set_cell_tail (g : CM) (cell : Cell) (value : ℕ) :
    (set_cell g cell value).overlays.tail = g.overlays.tail := by
  unfold set_cell
  rw [cmWrite_tail]
  exact (fold_removeAt_pres value _ g).1

theorem set_cell_basePres (g : CM) (cell : Cell) (value : ℕ) :
    basePres g.base (set_cell g cell value).base := by
  unfold set_cell
  rw [cmWrite_base]
  exact (fold_removeAt_pres value _ g).2

theorem solutionsLoop_restores (recur : CM → List CM × CM) (c : Cell)
    (hrec : ∀ h : CM, (recur h).2.overlays = h.overlays ∧ basePres h.base (recur h).2.base) :
    ∀ (vs : List ℕ) (g : CM), (solutionsLoop recur c g vs).2.overlays = g.overlays ∧
      basePres g.base (solutionsLoop recur c g vs).2.base := by
  intro vs
  induction vs with
  | nil => exact fun g => ⟨rfl, basePres_refl _⟩
  | cons v t ih =>
    intro g
    simp only [solutionsLoop]
    rcases hq : recur (set_cell (enterScope g) c v) with ⟨sols1, g1⟩
    rcases hr : solutionsLoop recur c (exitScope g1) t with ⟨sols2, g2⟩
    have hg1o : g1.overlays = (set_cell (enterScope g) c v).overlays := by
      have := (hrec (set_cell (enterScope g) c v)).1
      rw [hq] at this
      exact this
    have hg1b : basePres g.base g1.base := by
      have h1 := set_cell_basePres (enterScope g) c v
      have h2 := (hrec (set_cell (enterScope g) c v)).2
      rw [hq] at h2
      exact basePres_trans h1 h2
    have hexit : (exitScope g1).overlays = g.overlays := by
      show g1.overlays.tail = g.overlays
      rw [hg1o, set_cell_tail]
      rfl
    have := ih (exitScope g1)
    rw [hr] at this
    obtain ⟨ho, hb⟩ := this
    refine ⟨by rw [ho, hexit], basePres_trans hg1b (by simpa [exitScope] using hb)⟩

theorem solutions_restores (cells : List Cell) :
    ∀ g : CM, (solutions cells g).2.overlays = g.overlays ∧
      basePres g.base (solutions cells g).2.base := by
  induction cells with
  | nil => exact fun g => ⟨rfl, basePres_refl _⟩
  | cons c rest ih =>
    intro g
    simp only [solutions]
    rcases hg : cmGet g c with ⟨cands, g1⟩
    have hg1o : g1.overlays = g.overlays := by
      have := cmGet_overlays g c
      rw [hg] at this
      exact this
    have hg1b : basePres g.base g1.base := by
      have := cmGet_basePres g c
      rw [hg] at this
      exact this
    obtain ⟨ho, hb⟩ := solutionsLoop_restores (solutions rest) c ih (natList cands) g1
    exact ⟨ho.trans hg1o, basePres_trans hg1b hb⟩

/-- Claim C5: entering a `search_subgrid` scope (push a fresh overlay, then
`set_cell`) and exiting it restores the parent layers exactly and restores
the view of every cell; moreover a whole `solutions` enumeration leaves the
overlay stack and every cell's view as they were. -/
theorem exitScope_overlays (g : CM) : (exitScope g).overlays = g.overlays.tail := rfl

theorem exitScope_base (g : CM) : (exitScope g).base = g.base := rfl

theorem enterScope_overlays (g : CM) : (enterScope g).overlays = [] :: g.overlays := rfl

theorem cmView_def (g : CM) (q : Cell) :
    cmView g q = (lookupLayers g.overlays q).getD (baseVal g.base q) := rfl

theorem getD_congr {α : Type} {a a' : Option α} {b b' : α} (h1 : a = a') (h2 : b = b') :
    a.getD b = a'.getD b' := by rw [h1, h2]

/-- Claim C5: entering a `search_subgrid` scope (push a fresh overlay, then
`set_cell`) and exiting it restores the parent layers exactly and restores
the view of every cell; moreover a whole `solutions` enumeration leaves the
overlay stack and every cell's view as they were (the shared `blank_grid`
acquires materialised default entries, which change no view). -/
theorem claim5 (g : CM) (c : Cell) (v : ℕ) (cells : List Cell) :
    ((exitScope (set_cell (enterScope g) c v)).overlays = g.overlays ∧
      ∀ q, cmView (exitScope (set_cell (enterScope g) c v)) q = cmView g q) ∧
    ((solutions cells g).2.overlays = g.overlays ∧
      ∀ q, cmView (solutions cells g).2 q = cmView g q) := by
  have h1 : (exitScope (set_cell (enterScope g) c v)).overlays = g.overlays := by
    rw [exitScope_overlays, set_cell_tail, enterScope_overlays, List.tail_cons]
  have h2 : basePres g.base (exitScope (set_cell (enterScope g) c v)).base := by
    rw [exitScope_base]
    exact set_cell_basePres (enterScope g) c v
  obtain ⟨h3, h4⟩ := solutions_restores cells g
  refine ⟨⟨h1, fun q => ?_⟩, h3, fun q => ?_⟩
  · exact (cmView_def _ q).trans
      ((getD_congr (congrArg (fun o => lookupLayers o q) h1) (h2.1 q)).trans
        (cmView_def g q).symm)
  · exact (cmView_def _ q).trans
      ((getD_congr (congrArg (fun o => lookupLayers o q) h3) (h4.1 q)).trans
        (cmView_def g q).symm)

theorem fold_set_cell_basePres (pairs : List (Cell × ℕ)) :
    ∀ g : CM, basePres g.base ((pairs.foldl (fun gc p => set_cell gc p.1 p.2) g)).base := by
  induction pairs with
  | nil => exact fun g => basePres_refl _
  | cons p t ih =>
    intro g
    rw [List.foldl_cons]
    exact basePres_trans (set_cell_basePres g p.1 p.2) (ih (set_cell g p.1 p.2))

theorem applySOp_basePres (g : CM) (o : SOp) : basePres g.base (applySOp g o).base := by
  cases o with
  | setc c v => exact set_cell_basePres g c v
  | search cells => exact (solutions_restores cells g).2
  | construct pairs =>
    show basePres g.base (mkGrid g.base pairs).base
    exact fold_set_cell_basePres pairs ⟨[[]], g.base⟩

theorem applyOps_basePres (ops : List SOp) :
    ∀ g : CM, basePres g.base (applyOps g ops).base := by
  induction ops with
  | nil => exact fun g => basePres_refl _
  | cons o t ih =>
    intro g
    exact basePres_trans (applySOp_basePres g o) (ih (applySOp g o))

/-- Claim C10: starting from a `blank_grid` all of whose stored values are
the full candidate set, any sequence of `SudokuGrid` constructions,
`set_cell` calls and `solutions` searches preserves that invariant — the
shared base answers the full candidate set `{1..9}` for every cell — and
a grid view over any overlay stack is the same over any two bases
satisfying the invariant, so instances never observe each other's
mutations. -/
theorem claim10 (ops : List SOp) (g : CM) (hb : baseBlank g.base) :
    baseBlank (applyOps g ops).base ∧
    (∀ q, baseVal (applyOps g ops).base q = blankDefault) ∧
    (∀ (o : List Layer) (b1 b2 : Layer) (q : Cell), baseBlank b1 → baseBlank b2 →
      cmView ⟨o, b1⟩ q = cmView ⟨o, b2⟩ q) := by
  have hb' : baseBlank (applyOps g ops).base := (applyOps_basePres ops g).2 hb
  refine ⟨hb', fun q => baseVal_of_blank hb' q, fun o b1 b2 q h1 h2 => ?_⟩
  rw [cmView_def, cmView_def]
  show (lookupLayers o q).getD (baseVal b1 q) = (lookupLayers o q).getD (baseVal b2 q)
  rw [baseVal_of_blank h1 q, baseVal_of_blank h2 q]

/-- Claim C10 (witness): the invariant theorem applied to the pristine base
and a sample operation sequence. -/
theorem claim10_witness :
    baseBlank (applyOps ⟨[[]], []⟩ opsExample).base ∧
    baseVal (applyOps ⟨[[]], []⟩ opsExample).base (5, 5) = blankDefault :=
  ⟨(claim10 opsExample ⟨[[]], []⟩ (by simp [baseBlank])).1,
    (claim10 opsExample ⟨[[]], []⟩ (by simp [baseBlank])).2.1 (5, 5)⟩

end Search

theorem filterMap_ite_eq_map {α β : Type} (P : α → Prop) [DecidablePred P] (f : α → β)
    (l : List α) (h : ∀ x ∈ l, ¬ P x) :
    l.filterMap (fun x => if P x then none else some (f x)) = l.map f := by
  induction l with
  | nil => rfl
  | cons a t ih =>
    rw [List.filterMap_cons, List.map_cons, if_neg (h a (List.mem_cons_self a t)),
      ih fun x hx => h x (List.mem_cons_of_mem a hx)]

theorem enumFrom_flatMap {α β : Type} (g : ℕ × α → List β) (d : α) (l : List α) :
    ∀ n : ℕ, (l.enumFrom n).flatMap g
      = (List.range l.length).flatMap fun i => g (n + i, l.getD i d) := by
  induction l with
  | nil => intro n; rfl
  | cons a t ih =>
    intro n
    rw [List.enumFrom_cons, List.flatMap_cons, ih (n + 1), List.length_cons,
      List.range_succ_eq_map, List.flatMap_cons, List.flatMap_map]
    congr 1
    apply List.flatMap_congr
    intro i _
    show g (n + 1 + i, t.getD i d) = g (n + (i + 1), (a :: t).getD (i + 1) d)
    rw [List.getD_cons_succ]
    have he : n + (i + 1) = n + 1 + i := by omega
    rw [he]

theorem enum_flatMap {α β : Type} (g : ℕ × α → List β) (d : α) (l : List α) :
    l.enum.flatMap g = (List.range l.length).flatMap fun i => g (i, l.getD i d) := by
  rw [List.enum_eq_enumFrom, enumFrom_flatMap g d l 0]
  simp

theorem enumFrom_map {α β : Type} (g : ℕ × α → β) (d : α) (l : List α) :
    ∀ n : ℕ, (l.enumFrom n).map g
      = (List.range l.length).map fun i => g (n + i, l.getD i d) := by
  induction l with
  | nil => intro n; rfl
  | cons a t ih =>
    intro n
    rw [List.enumFrom_cons, List.map_cons, ih (n + 1), List.length_cons,
      List.range_succ_eq_map, List.map_cons, List.map_map]
    congr 1
    apply List.map_congr_left
    intro i _
    show g (n + 1 + i, t.getD i d) = g (n + (i + 1), (a :: t).getD (i + 1) d)
    rw [List.getD_cons_succ]
    have he : n + (i + 1) = n + 1 + i := by omega
    rw [he]

theorem enum_map {α β : Type} (g : ℕ × α → β) (d : α) (l : List α) :
    l.enum.map g = (List.range l.length).map fun i => g (i, l.getD i d) := by
  rw [List.enum_eq_enumFrom, enumFrom_map g d l 0]
  simp

theorem getD_mem {α : Type} {l : List α} {i : ℕ} (d : α) (h : i < l.length) :
    l.getD i d ∈ l := by
  rw [List.getD_eq_getElem l d h]
  exact List.getElem_mem h

theorem list_eq_map_range {α : Type} (l : List α) (d : α) :
    l = (List.range l.length).map fun i => l.getD i d := by
  induction l with
  | nil => rfl
  | cons a t ih =>
    rw [List.length_cons, List.range_succ_eq_map, List.map_cons, List.getD_cons_zero,
      List.map_map]
    refine List.cons_eq_cons.mpr ⟨rfl, ?_⟩
    conv_lhs => rw [ih]
    apply List.map_congr_left
    intro i _
    show t.getD i d = (a :: t).getD (i + 1) d
    rw [List.getD_cons_succ]

theorem snd_mem_of_mem_enumFrom {α : Type} {l : List α} :
    ∀ {n : ℕ} {p : ℕ × α}, p ∈ l.enumFrom n → p.2 ∈ l := by
  induction l with
  | nil => intro n p h; simp [List.enumFrom] at h
  | cons a t ih =>
    intro n p h
    rw [List.enumFrom_cons] at h
    rcases List.mem_cons.mp h with h1 | h1
    · rw [h1]
      exact List.mem_cons_self _ _
    · exact List.mem_cons_of_mem _ (ih h1)

theorem snd_mem_of_mem_enum {α : Type} {l : List α} {p : ℕ × α} (h : p ∈ l.enum) :
    p.2 ∈ l :=
  snd_mem_of_mem_enumFrom (List.enum_eq_enumFrom ▸ h)

theorem read_grid_full (lines : List (List Char))
    (h9 : lines.length = 9) (hrow : ∀ row ∈ lines, row.length = 9)
    (hns : ∀ row ∈ lines, ∀ ch ∈ row, ch ≠ ' ') :
    Search.read_grid lines
      = (List.range 9).flatMap fun r => (List.range 9).map fun c =>
          (((r, c) : Cell), dval lines r c) := by
  unfold Search.read_grid
  rw [enum_flatMap _ [] lines, h9]
  apply List.flatMap_congr
  intro r hr
  dsimp only
  have hrl : r < lines.length := by rw [h9]; exact List.mem_range.mp hr
  have hmem : lines.getD r [] ∈ lines := getD_mem [] hrl
  have hns' : ∀ ci ∈ (lines.getD r []).enum, ¬ (ci.2 = ' ') := fun ci hci =>
    hns _ hmem ci.2 (snd_mem_of_mem_enum hci)
  refine Eq.trans (filterMap_ite_eq_map (fun ci : ℕ × Char => ci.2 = ' ')
    (fun ci : ℕ × Char => (((r, ci.1) : Cell), ci.2.toNat - '0'.toNat))
    (lines.getD r []).enum hns') ?_
  rw [enum_map _ ' ' _, hrow _ hmem]
  rfl

namespace Search

theorem lookup_updateA (c : Cell) (s : Finset ℕ) (q : Cell) :
    ∀ l : Layer, List.lookup q (updateA l c s) = if q = c then some s else List.lookup q l := by
  intro l
  induction l with
  | nil =>
    show List.lookup q [(c, s)] = _
    by_cases h : q = c
    · rw [if_pos h]
      subst h
      simp [List.lookup]
    · rw [if_neg h]
      have hb : (q == c) = false := by simpa using h
      simp [List.lookup, hb]
  | cons e t ih =>
    obtain ⟨k, v⟩ := e
    simp only [updateA]
    by_cases hkc : k = c
    · rw [if_pos hkc]
      by_cases h : q = c
      · rw [if_pos h]
        subst h
        simp [List.lookup]
      · rw [if_neg h]
        have hb : (q == c) = false := by simpa using h
        have hbk : (q == k) = false := by
          have hqk : q ≠ k := fun hh => h (hh.trans hkc)
          simpa using hqk
        simp [List.lookup, hb, hbk]
    · rw [if_neg hkc]
      by_cases hqk : q = k
      · have hqc : q ≠ c := fun hh => hkc (hqk ▸ hh)
        rw [if_neg hqc]
        have hb : (q == k) = true := by simpa using hqk
        simp [List.lookup, hb]
      · have hb : (q == k) = false := by simpa using hqk
        simp only [List.lookup, hb]
        exact ih

theorem cmWrite_view (g : CM) (c : Cell) (s : Finset ℕ) (q : Cell) :
    cmView (cmWrite g c s) q = if q = c then s else cmView g q := by
  obtain ⟨o, b⟩ := g
  cases o with
  | nil =>
    have h1 : cmWrite ⟨[], b⟩ c s = ⟨[[(c, s)]], b⟩ := rfl
    rw [h1, cmView_def, cmView_def]
    show ((List.lookup q [(c, s)]).or (lookupLayers [] q)).getD (baseVal b q) = _
    by_cases h : q = c
    · rw [if_pos h]
      subst h
      simp [List.lookup, lookupLayers]
    · rw [if_neg h]
      have hb : (q == c) = false := by simpa using h
      simp [List.lookup, hb, lookupLayers]
  | cons l ls =>
    have h1 : cmWrite ⟨l :: ls, b⟩ c s = ⟨updateA l c s :: ls, b⟩ := rfl
    rw [h1, cmView_def, cmView_def]
    show ((List.lookup q (updateA l c s)).or (lookupLayers ls q)).getD (baseVal b q)
      = if q = c then s
        else ((List.lookup q l).or (lookupLayers ls q)).getD (baseVal b q)
    rw [lookup_updateA]
    by_cases h : q = c
    · rw [if_pos h, if_pos h]
      rfl
    · rw [if_neg h, if_neg h]

theorem cmGet_fst (g : CM) (c : Cell) : (cmGet g c).1 = cmView g c := by
  unfold cmGet cmView baseVal
  rcases h1 : lookupLayers g.overlays c with _ | s
  · rcases h2 : List.lookup c g.base with _ | s <;> simp [h1, h2]
  · simp [h1]

theorem cmGet_view (g : CM) (c q : Cell) : cmView (cmGet g c).2 q = cmView g q :=
  (cmView_def _ q).trans
    ((getD_congr (congrArg (fun o => lookupLayers o q) (cmGet_overlays g c))
      ((cmGet_basePres g c).1 q)).trans (cmView_def g q).symm)

theorem removeAt_view (value : ℕ) (g : CM) (oc q : Cell) :
    cmView (removeAt value g oc) q
      = if q = oc then cmView g oc \ {value} else cmView g q := by
  unfold removeAt
  rcases h : cmGet g oc with ⟨s, g2⟩
  have hs : s = cmView g oc := by
    have := cmGet_fst g oc
    rw [h] at this
    exact this
  have hv : ∀ r, cmView g2 r = cmView g r := by
    intro r
    have := cmGet_view g oc r
    rw [h] at this
    exact this
  rw [cmWrite_view]
  by_cases hq : q = oc
  · rw [if_pos hq, if_pos hq, hs]
  · rw [if_neg hq, if_neg hq, hv]

theorem fold_removeAt_view (value : ℕ) (l : List Cell) :
    ∀ (g : CM) (q : Cell), l.Nodup →
      cmView (l.foldl (removeAt value) g) q
        = if q ∈ l then cmView g q \ {value} else cmView g q := by
  induction l with
  | nil => intro g q _; simp
  | cons oc t ih =>
    intro g q hnd
    have hoc : oc ∉ t := (List.nodup_cons.mp hnd).1
    rw [List.foldl_cons, ih _ _ (List.nodup_cons.mp hnd).2]
    by_cases h1 : q ∈ t
    · have hne : q ≠ oc := fun h => hoc (h ▸ h1)
      rw [if_pos h1, removeAt_view, if_neg hne, if_pos (List.mem_cons_of_mem _ h1)]
    · rw [if_neg h1, removeAt_view]
      by_cases h2 : q = oc
      · rw [if_pos h2, if_pos (by rw [h2]; exact List.mem_cons_self _ _), h2]
      · rw [if_neg h2, if_neg (by simp [List.mem_cons, h1, h2])]

theorem set_cell_view (g : CM) (cell : Cell) (value : ℕ) (q : Cell) :
    cmView (set_cell g cell value) q
      = if q = cell then {value}
        else if q ∈ other_cells_affected cell then cmView g q \ {value}
        else cmView g q := by
  unfold set_cell
  rw [cmWrite_view]
  by_cases h1 : q = cell
  · rw [if_pos h1, if_pos h1]
  · rw [if_neg h1, if_neg h1, fold_removeAt_view value _ _ _ (cellList_nodup _)]
    by_cases h2 : q ∈ other_cells_affected cell
    · rw [if_pos (mem_cellList.mpr h2), if_pos h2]
    · rw [if_neg (fun hm => h2 (mem_cellList.mp hm)), if_neg h2]

theorem load_fold_view (L : List (Cell × ℕ)) :
    ∀ (g : CM) (done : List (Cell × ℕ)),
      ((done ++ L).map Prod.fst).Nodup →
      (∀ p ∈ done ++ L, ∀ p' ∈ done ++ L,
        p.1 ≠ p'.1 → p.1 ∈ other_cells_affected p'.1 → p.2 ≠ p'.2) →
      (∀ p ∈ done, cmView g p.1 = {p.2}) →
      ∀ p ∈ done ++ L,
        cmView (L.foldl (fun gc e => set_cell gc e.1 e.2) g) p.1 = {p.2} := by
  induction L with
  | nil =>
    intro g done _ _ hdone p hp
    rw [List.foldl_nil]
    exact hdone p (by simpa using hp)
  | cons e T ih =>
    intro g done hnd hcompat hdone p hp
    rw [List.foldl_cons]
    have hassoc : (done ++ [e]) ++ T = done ++ e :: T := by
      rw [List.append_assoc]
      rfl
    have hemem : e ∈ done ++ e :: T := by
      exact List.mem_append_right _ (List.mem_cons_self _ _)
    have hdone' : ∀ p' ∈ done ++ [e], cmView (set_cell g e.1 e.2) p'.1 = {p'.2} := by
      intro p' hp'
      rcases List.mem_append.mp hp' with hd | hh
      · have hne : p'.1 ≠ e.1 := by
          intro hcontra
          have h2 : (done.map Prod.fst ++ (e :: T).map Prod.fst).Nodup := by
            rw [← List.map_append]
            exact hnd
          exact List.disjoint_of_nodup_append h2
            (List.mem_map_of_mem Prod.fst hd)
            (by rw [hcontra]; exact List.mem_map_of_mem Prod.fst (List.mem_cons_self _ _))
        rw [set_cell_view, if_neg hne]
        by_cases haff : p'.1 ∈ other_cells_affected e.1
        · rw [if_pos haff, hdone p' hd]
          have hvne : p'.2 ≠ e.2 :=
            hcompat p' (List.mem_append_left _ hd) e hemem hne haff
          exact Finset.sdiff_eq_self_of_disjoint (Finset.disjoint_singleton.mpr hvne)
        · rw [if_neg haff]
          exact hdone p' hd
      · have : p' = e := by simpa using hh
        subst this
        rw [set_cell_view, if_pos rfl]
    have := ih (set_cell g e.1 e.2) (done ++ [e]) (by rw [hassoc]; exact hnd)
      (by rw [hassoc]; exact hcompat) hdone' p (by rw [hassoc]; exact hp)
    exact this

theorem mkGrid_view (L : List (Cell × ℕ)) (b : Layer)
    (hnd : (L.map Prod.fst).Nodup)
    (hcompat : ∀ p ∈ L, ∀ p' ∈ L,
      p.1 ≠ p'.1 → p.1 ∈ other_cells_affected p'.1 → p.2 ≠ p'.2) :
    ∀ p ∈ L, cmView (mkGrid b L) p.1 = {p.2} := by
  intro p hp
  unfold mkGrid
  exact load_fold_view L ⟨[[]], b⟩ [] (by simpa using hnd) (by simpa using hcompat)
    (by simp) p (by simpa using hp)

end Search

theorem range9_map_ne {f : ℕ → ℕ} (hnd : ((List.range 9).map f).Nodup)
    {i j : ℕ} (hi : i < 9) (hj : j < 9) (hij : i ≠ j) : f i ≠ f j := by
  intro hfe
  apply hij
  have hi' : i < ((List.range 9).map f).length := by simpa using hi
  have hj' : j < ((List.range 9).map f).length := by simpa using hj
  have h1 : ((List.range 9).map f)[i] = ((List.range 9).map f)[j] := by
    simp [hfe]
  exact hnd.getElem_inj_iff.mp h1

theorem perm_range_nodup {l : List ℕ}
    (h : (l : Multiset ℕ) = ((List.range' 1 9 : List ℕ) : Multiset ℕ)) : l.Nodup := by
  have hp : l.Perm (List.range' 1 9) := Multiset.coe_eq_coe.mp h
  exact hp.nodup_iff.mpr (List.nodup_range' 1 9)

theorem selfConsistent_vals_ne (lines : List (List Char))
    (hrows : ∀ r < 9, ((rowVals lines r : List ℕ) : Multiset ℕ)
      = ((List.range' 1 9 : List ℕ) : Multiset ℕ))
    (hcols : ∀ c < 9, ((colVals lines c : List ℕ) : Multiset ℕ)
      = ((List.range' 1 9 : List ℕ) : Multiset ℕ))
    (hboxes : ∀ b < 9, ((boxVals lines b : List ℕ) : Multiset ℕ)
      = ((List.range' 1 9 : List ℕ) : Multiset ℕ))
    (r c r' c' : ℕ) (hr : r < 9) (hc : c < 9) (hr' : r' < 9) (hc' : c' < 9)
    (hne : ((r, c) : Cell) ≠ (r', c'))
    (haff : ((r, c) : Cell) ∈ Search.other_cells_affected (r', c')) :
    dval lines r c ≠ dval lines r' c' := by
  have hne' : ¬(r = r' ∧ c = c') := by
    rintro ⟨h1, h2⟩
    exact hne (by rw [h1, h2])
  simp only [Search.other_cells_affected, Finset.mem_union, List.mem_toFinset,
    List.mem_map, List.mem_flatMap] at haff
  rcases haff with (h12 | hbox)
  · rcases h12 with (hcolm | hrowm)
    · obtain ⟨i, _, hpe⟩ := hcolm
      have hc2 : c = c' := by
        have := congrArg Prod.snd hpe
        simpa using this.symm
      have hrr : r ≠ r' := fun hh => hne' ⟨hh, hc2⟩
      subst hc2
      exact range9_map_ne (perm_range_nodup (hcols c hc)) hr hr' hrr
    · obtain ⟨i, _, hpe⟩ := hrowm
      have hr2 : r = r' := by
        have := congrArg Prod.fst hpe
        simpa using this.symm
      have hcc : c ≠ c' := fun hh => hne' ⟨hr2, hh⟩
      subst hr2
      exact range9_map_ne (perm_range_nodup (hrows r hr)) hc hc' hcc
  · obtain ⟨rr, hrr, cc, hcc, hpe⟩ := hbox
    have hre : rr = r := by
      have := congrArg Prod.fst hpe
      simpa using this
    have hce : cc = c := by
      have := congrArg Prod.snd hpe
      simpa using this
    subst hre
    subst hce
    simp only [Search.subsq_range, Search.SQS, List.mem_range'_1] at hrr hcc
    have hr3 : rr / 3 = r' / 3 := by omega
    have hc3 : cc / 3 = c' / 3 := by omega
    have hb9 : 3 * (r' / 3) + c' / 3 < 9 := by omega
    have hnb := perm_range_nodup (hboxes (3 * (r' / 3) + c' / 3) hb9)
    have hi : 3 * (rr % 3) + cc % 3 < 9 := by omega
    have hj : 3 * (r' % 3) + c' % 3 < 9 := by omega
    have hij : 3 * (rr % 3) + cc % 3 ≠ 3 * (r' % 3) + c' % 3 := by omega
    have hky := range9_map_ne
      (f := fun i => dval lines (3 * ((3 * (r' / 3) + c' / 3) / 3) + i / 3)
        (3 * ((3 * (r' / 3) + c' / 3) % 3) + i % 3))
      hnb hi hj hij
    have e1 : 3 * ((3 * (r' / 3) + c' / 3) / 3) + (3 * (rr % 3) + cc % 3) / 3 = rr := by
      omega
    have e2 : 3 * ((3 * (r' / 3) + c' / 3) % 3) + (3 * (rr % 3) + cc % 3) % 3 = cc := by
      omega
    have e3 : 3 * ((3 * (r' / 3) + c' / 3) / 3) + (3 * (r' % 3) + c' % 3) / 3 = r' := by
      omega
    have e4 : 3 * ((3 * (r' / 3) + c' / 3) % 3) + (3 * (r' % 3) + c' % 3) % 3 = c' := by
      omega
    simpa only [e1, e2, e3, e4] using hky

theorem natList_singleton (v : ℕ) : natList {v} = [v] := rfl

theorem cellChar_singleton (v : ℕ) :
    Search.cellChar {v} = Char.ofNat ('0'.toNat + v) := by
  unfold Search.cellChar
  rw [natList_singleton]

theorem digit_roundtrip :
    ∀ ch ∈ digitChars, Char.ofNat ('0'.toNat + (ch.toNat - '0'.toNat)) = ch := by decide

/-- Claim C7: formatting the grid obtained by loading a fully filled,
self-consistent 9×9 digit grid returns the input exactly:
`display(SudokuGrid(read_grid(g))) == g`. -/
theorem claim7 (lines : List (List Char)) (h : selfConsistent lines) :
    Search.display (Search.mkGrid [] (Search.read_grid lines)) = lines := by
  obtain ⟨h9, hrow, hdig, hrows, hcols, hboxes⟩ := h
  have hns : ∀ row ∈ lines, ∀ ch ∈ row, ch ≠ ' ' := by
    intro row hr ch hc hsp
    have h1 := hdig row hr ch hc
    rw [hsp] at h1
    exact absurd h1 (by decide)
  have hfull := read_grid_full lines h9 hrow hns
  have hnd : ((Search.read_grid lines).map Prod.fst).Nodup := by
    rw [hfull, List.map_flatMap]
    have hpts : ∀ r ∈ List.range 9,
        ((List.range 9).map fun c => (((r, c) : Cell), dval lines r c)).map Prod.fst
          = (List.range 9).map fun c => ((r, c) : Cell) := by
      intro r _
      rw [List.map_map]
      rfl
    rw [List.flatMap_congr hpts]
    decide
  have hmem_inv : ∀ p ∈ Search.read_grid lines,
      ∃ r c, r < 9 ∧ c < 9 ∧ p = (((r, c) : Cell), dval lines r c) := by
    intro p hp
    rw [hfull] at hp
    rcases List.mem_flatMap.mp hp with ⟨r, hr, hp2⟩
    rcases List.mem_map.mp hp2 with ⟨c, hc, hpe⟩
    exact ⟨r, c, List.mem_range.mp hr, List.mem_range.mp hc, hpe.symm⟩
  have hcompat : ∀ p ∈ Search.read_grid lines, ∀ p' ∈ Search.read_grid lines,
      p.1 ≠ p'.1 → p.1 ∈ Search.other_cells_affected p'.1 → p.2 ≠ p'.2 := by
    intro p hp p' hp' hne haff
    obtain ⟨r, c, hr, hc, hpe⟩ := hmem_inv p hp
    obtain ⟨r', c', hr', hc', hpe'⟩ := hmem_inv p' hp'
    subst hpe
    subst hpe'
    exact selfConsistent_vals_ne lines hrows hcols hboxes r c r' c' hr hc hr' hc'
      hne haff
  have hview : ∀ r c, r < 9 → c < 9 →
      Search.cmView (Search.mkGrid [] (Search.read_grid lines)) (r, c)
        = {dval lines r c} := by
    intro r c hr hc
    have hin : (((r, c) : Cell), dval lines r c) ∈ Search.read_grid lines := by
      rw [hfull]
      exact List.mem_flatMap.mpr ⟨r, List.mem_range.mpr hr,
        List.mem_map.mpr ⟨c, List.mem_range.mpr hc, rfl⟩⟩
    exact Search.mkGrid_view _ [] hnd hcompat _ hin
  unfold Search.display
  have hG : Search.GRID_SIZE = 9 := rfl
  rw [hG]
  conv_rhs => rw [list_eq_map_range lines []]
  rw [h9]
  apply List.map_congr_left
  intro r hr
  have hr9 := List.mem_range.mp hr
  have hrmem : lines.getD r [] ∈ lines := getD_mem [] (by rw [h9]; exact hr9)
  conv_rhs => rw [list_eq_map_range (lines.getD r []) ' ']
  rw [hrow _ hrmem]
  apply List.map_congr_left
  intro c hc
  have hc9 := List.mem_range.mp hc
  rw [hview r c hr9 hc9, cellChar_singleton]
  have hchmem : (lines.getD r []).getD c ' ' ∈ digitChars := by
    apply hdig _ hrmem
    apply getD_mem
    rw [hrow _ hrmem]
    exact hc9
  exact digit_roundtrip _ hchmem

/-- Claim C7 (witness): the round trip on the `SOLVED_TEST_GRID` literal of
the repository's tests. -/
theorem claim7_witness :
    Search.display (Search.mkGrid [] (Search.read_grid SOLVED_TEST_GRID))
      = SOLVED_TEST_GRID :=
  claim7 SOLVED_TEST_GRID (by unfold selfConsistent; decide)

/-! ### Claim C9: the naked-pair rule of `find_subsets_in_row` -/

theorem combos2_mem : ∀ {l : List ℕ}, l.Sorted (· ≤ ·) → ∀ {a b : ℕ}, a ∈ l → b ∈ l →
    a < b → (a, b) ∈ Smarter.combos2 l := by
  intro l
  induction l with
  | nil =>
    intro _ a b ha _ _
    simp at ha
  | cons x t ih =>
    intro hs a b ha hb hab
    simp only [Smarter.combos2, List.mem_append]
    rcases List.mem_cons.mp ha with h1 | h1
    · subst h1
      left
      have hbt : b ∈ t := by
        rcases List.mem_cons.mp hb with h2 | h2
        · omega
        · exact h2
      exact List.mem_map_of_mem _ hbt
    · right
      have hbt : b ∈ t := by
        rcases List.mem_cons.mp hb with h2 | h2
        · have := (List.sorted_cons.mp hs).1 a h1
          omega
        · exact h2
      exact ih (List.sorted_cons.mp hs).2 h1 hbt hab

theorem mem_remaining_values {g : Smarter.SmGrid} {cells : List Cell} {v : ℕ} :
    v ∈ Smarter.remaining_values g cells ↔ ∃ p ∈ cells, v ∈ g.grid p := by
  induction cells with
  | nil => simp [Smarter.remaining_values]
  | cons p t ih =>
    show v ∈ g.grid p ∪ Smarter.remaining_values g t ↔ _
    constructor
    · intro h
      rcases Finset.mem_union.mp h with h | h
      · exact ⟨p, List.mem_cons_self p t, h⟩
      · obtain ⟨q, hq, hv⟩ := ih.mp h
        exact ⟨q, List.mem_cons_of_mem p hq, hv⟩
    · rintro ⟨q, hq, hv⟩
      rcases List.mem_cons.mp hq with h | h
      · subst h
        exact Finset.mem_union_left _ hv
      · exact Finset.mem_union_right _ (ih.mpr ⟨q, h, hv⟩)

theorem mem_locations_for {g : Smarter.SmGrid} {v : ℕ} {cells : List Cell} {p : Cell} :
    p ∈ Smarter.locations_for g v cells ↔ p ∈ cells ∧ v ∈ g.grid p := by
  simp [Smarter.locations_for, List.mem_filter]

set_option maxRecDepth 100000 in
/-- Claim C9 (counterexample): on `cexGrid` the claim's premises all hold in
row 1 for the digit pair (1, 2) — the two digits' candidate cells coincide
in exactly the 2 shared cells (1, 1) and (1, 2) (both before and after the
superset filtering the source applies), cell (1, 1)'s candidate set is
exactly the pair, and digit 1 also has the candidate cell (1, 3) outside
the pair — yet `find_subsets_in_row` emits no action at all: the source's
naked-pair branch additionally requires the *other* shared cell (1, 2),
which here holds `{1, 2, 3}`, to equal the pair exactly. -/
theorem claim9_counterexample :
    ((Smarter.locations_for Smarter.cexGrid 1 (Smarter.rowCells 1) ∩
        Smarter.locations_for Smarter.cexGrid 2 (Smarter.rowCells 1)).card = 2 ∧
      ((Smarter.locations_for Smarter.cexGrid 1 (Smarter.rowCells 1) ∩
        Smarter.locations_for Smarter.cexGrid 2 (Smarter.rowCells 1)).filter
        (fun p => ({1, 2} : Finset ℕ) ⊆ Smarter.cexGrid.grid p)).card = 2 ∧
      Smarter.cexGrid.grid (1, 1) = {1, 2} ∧
      ((1, 3) : Cell) ∈ Smarter.locations_for Smarter.cexGrid 1 (Smarter.rowCells 1) ∧
      ((1, 3) : Cell) ∉ Smarter.locations_for Smarter.cexGrid 1 (Smarter.rowCells 1) ∩
        Smarter.locations_for Smarter.cexGrid 2 (Smarter.rowCells 1)) ∧
    Smarter.find_subsets_in_row Smarter.cexGrid = [] := by
  decide

/-- Claim C9 (amended): the naked-pair rule as the source actually
implements it.  If in some row the two digits' shared candidate cells
(those of the filtered intersection the source computes) number exactly 2,
*every* such shared cell's candidate set is exactly the pair, either digit
occurs in more than 2 cells of the row, and `q` is a cell of the first
digit's locations outside the shared pair, then `find_subsets_in_row`
emits `Remove(q, fst_val)`. -/
theorem claim9_amended (g : Smarter.SmGrid) (row a b : ℕ) (q : Cell)
    (hrow1 : 1 ≤ row) (hrow9 : row ≤ 9) (hab : a < b)
    (hcard : ((Smarter.locations_for g a (Smarter.rowCells row) ∩
        Smarter.locations_for g b (Smarter.rowCells row)).filter
        (fun p => ({a, b} : Finset ℕ) ⊆ g.grid p)).card = 2)
    (hexact : ∀ p ∈ (Smarter.locations_for g a (Smarter.rowCells row) ∩
        Smarter.locations_for g b (Smarter.rowCells row)).filter
        (fun p => ({a, b} : Finset ℕ) ⊆ g.grid p), g.grid p = {a, b})
    (hmore : 2 < (Smarter.locations_for g a (Smarter.rowCells row)).card ∨
      2 < (Smarter.locations_for g b (Smarter.rowCells row)).card)
    (hq1 : q ∈ Smarter.locations_for g a (Smarter.rowCells row))
    (hq2 : q ∉ (Smarter.locations_for g a (Smarter.rowCells row) ∩
        Smarter.locations_for g b (Smarter.rowCells row)).filter
        (fun p => ({a, b} : Finset ℕ) ⊆ g.grid p)) :
    Smarter.Action.Remove q.1 q.2 a ∈ Smarter.find_subsets_in_row g := by
  have ha_rv : a ∈ Smarter.remaining_values g (Smarter.rowCells row) := by
    obtain ⟨hqc, hqa⟩ := mem_locations_for.mp hq1
    exact mem_remaining_values.mpr ⟨q, hqc, hqa⟩
  have hb_rv : b ∈ Smarter.remaining_values g (Smarter.rowCells row) := by
    have hpos : 0 < ((Smarter.locations_for g a (Smarter.rowCells row) ∩
        Smarter.locations_for g b (Smarter.rowCells row)).filter
        (fun p => ({a, b} : Finset ℕ) ⊆ g.grid p)).card := by omega
    obtain ⟨p, hp⟩ := Finset.card_pos.mp hpos
    have hmem := Finset.mem_filter.mp hp
    have hpb := (Finset.mem_inter.mp hmem.1).2
    obtain ⟨hpc, hpbv⟩ := mem_locations_for.mp hpb
    exact mem_remaining_values.mpr ⟨p, hpc, hpbv⟩
  have hcard2 : ¬ (Smarter.remaining_values g (Smarter.rowCells row)).card < 2 := by
    have hsub : ({a, b} : Finset ℕ) ⊆ Smarter.remaining_values g (Smarter.rowCells row) := by
      intro x hx
      rcases Finset.mem_insert.mp hx with h | h
      · subst h
        exact ha_rv
      · rw [Finset.mem_singleton.mp h]
        exact hb_rv
    have h2 : ({a, b} : Finset ℕ).card = 2 := Finset.card_pair (by omega)
    have hle := Finset.card_le_card hsub
    omega
  have hpair : (a, b) ∈ Smarter.combos2
      (natList (Smarter.remaining_values g (Smarter.rowCells row))) :=
    combos2_mem (natList_sorted _) (mem_natList.mpr ha_rv) (mem_natList.mpr hb_rv) hab
  obtain ⟨p1, p2, hl⟩ : ∃ p1 p2, cellList ((Smarter.locations_for g a (Smarter.rowCells row) ∩
      Smarter.locations_for g b (Smarter.rowCells row)).filter
      (fun p => ({a, b} : Finset ℕ) ⊆ g.grid p)) = [p1, p2] := by
    have hlen : (cellList ((Smarter.locations_for g a (Smarter.rowCells row) ∩
        Smarter.locations_for g b (Smarter.rowCells row)).filter
        (fun p => ({a, b} : Finset ℕ) ⊆ g.grid p))).length = 2 := by
      rw [cellList, fsort_length, hcard]
    rcases hll : cellList ((Smarter.locations_for g a (Smarter.rowCells row) ∩
        Smarter.locations_for g b (Smarter.rowCells row)).filter
        (fun p => ({a, b} : Finset ℕ) ⊆ g.grid p)) with _ | ⟨x, _ | ⟨y, _ | ⟨z, t⟩⟩⟩
    · rw [hll] at hlen
      simp at hlen
    · rw [hll] at hlen
      simp at hlen
    · exact ⟨x, y, rfl⟩
    · rw [hll] at hlen
      simp at hlen
  have hp1 : p1 ∈ (Smarter.locations_for g a (Smarter.rowCells row) ∩
      Smarter.locations_for g b (Smarter.rowCells row)).filter
      (fun p => ({a, b} : Finset ℕ) ⊆ g.grid p) := by
    rw [← mem_cellList, hl]
    exact List.mem_cons_self _ _
  have hp2 : p2 ∈ (Smarter.locations_for g a (Smarter.rowCells row) ∩
      Smarter.locations_for g b (Smarter.rowCells row)).filter
      (fun p => ({a, b} : Finset ℕ) ⊆ g.grid p) := by
    rw [← mem_cellList, hl]
    simp
  unfold Smarter.find_subsets_in_row
  apply List.mem_flatMap.mpr
  refine ⟨row, List.mem_range'_1.mpr ⟨hrow1, by omega⟩, ?_⟩
  unfold Smarter.find_subsets_in
  dsimp only
  rw [if_neg hcard2]
  apply List.mem_flatMap.mpr
  refine ⟨(a, b), hpair, ?_⟩
  dsimp only
  rw [if_pos hcard, hl]
  apply List.mem_append_left
  rw [if_pos hmore, if_pos ⟨hexact p1 hp1, hexact p2 hp2⟩]
  apply List.mem_append_left
  have hq' : q ∈ Smarter.locations_for g a (Smarter.rowCells row) \
      (Smarter.locations_for g a (Smarter.rowCells row) ∩
        Smarter.locations_for g b (Smarter.rowCells row)).filter
        (fun p => ({a, b} : Finset ℕ) ⊆ g.grid p) :=
    Finset.mem_sdiff.mpr ⟨hq1, hq2⟩
  exact List.mem_map.mpr ⟨q, mem_cellList.mpr hq', rfl⟩

set_option maxRecDepth 100000 in
/-- Claim C9 (witness): on `cexGrid2`, where both shared cells are exactly
the pair `{1, 2}`, the amended theorem applies and `Remove(1, 3, 1)` is
emitted. -/
theorem claim9_witness :
    Smarter.Action.Remove 1 3 1 ∈ Smarter.find_subsets_in_row Smarter.cexGrid2 :=
  claim9_amended Smarter.cexGrid2 1 1 2 (1, 3) (by decide) (by decide) (by decide)
    (by decide) (by decide) (by decide) (by decide) (by decide)

/-! ### Claim C8: termination of the driver loop -/

theorem two_of_card_eq_two {s : Finset Cell} (h : s.card = 2) :
    ∃ p1 p2, cellList s = [p1, p2] := by
  have hlen : (cellList s).length = 2 := by rw [cellList, fsort_length, h]
  rcases hll : cellList s with _ | ⟨x, _ | ⟨y, _ | ⟨z, t⟩⟩⟩
  · rw [hll] at hlen
    simp at hlen
  · rw [hll] at hlen
    simp at hlen
  · exact ⟨x, y, rfl⟩
  · rw [hll] at hlen
    simp at hlen

namespace Smarter

theorem mem_allCells_iff {p : Cell} :
    p ∈ allCells ↔ (1 ≤ p.1 ∧ p.1 ≤ 9) ∧ (1 ≤ p.2 ∧ p.2 ≤ 9) := by
  rcases p with ⟨x, y⟩
  unfold allCells
  rw [Finset.mem_product]
  simp [Finset.mem_Icc]

theorem mem_allCellsList {p : Cell} : p ∈ allCellsList ↔ p ∈ allCells := by
  rcases p with ⟨x, y⟩
  unfold allCellsList
  rw [mem_allCells_iff]
  simp only [List.mem_flatMap, List.mem_map, List.mem_range'_1, Prod.mk.injEq]
  constructor
  · rintro ⟨r, hr, c, hc, rfl, rfl⟩
    exact ⟨⟨hr.1, by omega⟩, hc.1, by omega⟩
  · rintro ⟨⟨h1, h2⟩, h3, h4⟩
    exact ⟨x, ⟨h1, by omega⟩, y, ⟨h3, by omega⟩, rfl, rfl⟩

theorem mem_boxes_bounds {b : Cell} (h : b ∈ boxes) :
    1 ≤ b.1 ∧ b.1 ≤ 3 ∧ 1 ≤ b.2 ∧ b.2 ≤ 3 := by
  unfold boxes at h
  obtain ⟨bc, hbc, h2⟩ := List.mem_flatMap.mp h
  obtain ⟨br, hbr, rfl⟩ := List.mem_map.mp h2
  rw [List.mem_range'_1] at hbc hbr
  exact ⟨hbr.1, by omega, hbc.1, by omega⟩

theorem mem_box_cell_axes_bounds {k i : ℕ} (h1 : 1 ≤ k) (h2 : k ≤ 3)
    (h : i ∈ box_cell_axes k) : 1 ≤ i ∧ i ≤ 9 := by
  unfold box_cell_axes at h
  rw [List.mem_range'_1] at h
  omega

theorem box_cells_sub {bp : Cell} (h1 : 1 ≤ bp.1) (h2 : bp.1 ≤ 3) (h3 : 1 ≤ bp.2)
    (h4 : bp.2 ≤ 3) : ∀ p ∈ box_cells bp, p ∈ allCells := by
  intro p hp
  unfold box_cells at hp
  obtain ⟨row, hrow, hp2⟩ := List.mem_flatMap.mp hp
  obtain ⟨col, hcol, rfl⟩ := List.mem_map.mp hp2
  have hr := mem_box_cell_axes_bounds h1 h2 hrow
  have hc := mem_box_cell_axes_bounds h3 h4 hcol
  exact mem_allCells_iff.mpr ⟨hr, hc⟩

theorem theSingle_mem {s : Finset ℕ} {v : ℕ} (h : theSingle s = some v) : v ∈ s := by
  unfold theSingle at h
  rcases hl : natList s with _ | ⟨x, _ | ⟨y, t⟩⟩ <;> rw [hl] at h
  · simp at h
  · simp only [] at h
    injection h with h
    subst h
    rw [← mem_natList, hl]
    exact List.mem_cons_self _ _
  · simp at h

theorem find_only_one_digit_in_cell_ok (g : SmGrid) :
    ∀ a ∈ find_only_one_digit_in_cell g, actionOk g a := by
  intro a ha
  unfold find_only_one_digit_in_cell at ha
  obtain ⟨p, hp, he⟩ := List.mem_filterMap.mp ha
  cases hs : theSingle (g.grid p) with
  | none =>
    rw [hs] at he
    simp at he
  | some v =>
    rw [hs] at he
    simp only [Option.map_some'] at he
    injection he with he
    subst he
    exact ⟨mem_allCellsList.mp hp, theSingle_mem hs⟩

theorem find_only_one_place_in_row_ok (g : SmGrid) :
    ∀ a ∈ find_only_one_place_in_row g, actionOk g a := by
  intro a ha
  unfold find_only_one_place_in_row at ha
  obtain ⟨row, hrow, ha2⟩ := List.mem_flatMap.mp ha
  obtain ⟨v, hv, he⟩ := List.mem_filterMap.mp ha2
  rw [List.mem_range'_1] at hrow hv
  split at he
  next c heq =>
    injection he with he
    subst he
    have hc : c ∈ (List.range' 1 9).filter (fun c => decide (v ∈ g.grid (row, c))) := by
      rw [heq]
      exact List.mem_cons_self _ _
    have hc2 := List.mem_filter.mp hc
    rw [List.mem_range'_1] at hc2
    refine ⟨mem_allCells_iff.mpr ⟨⟨hrow.1, by omega⟩, hc2.1.1, by omega⟩, ?_⟩
    exact of_decide_eq_true hc2.2
  next =>
    simp at he

theorem find_only_one_place_in_col_ok (g : SmGrid) :
    ∀ a ∈ find_only_one_place_in_col g, actionOk g a := by
  intro a ha
  unfold find_only_one_place_in_col at ha
  obtain ⟨col, hcol, ha2⟩ := List.mem_flatMap.mp ha
  obtain ⟨v, hv, he⟩ := List.mem_filterMap.mp ha2
  rw [List.mem_range'_1] at hcol hv
  split at he
  next r heq =>
    injection he with he
    subst he
    have hr : r ∈ (List.range' 1 9).filter (fun r => decide (v ∈ g.grid (r, col))) := by
      rw [heq]
      exact List.mem_cons_self _ _
    have hr2 := List.mem_filter.mp hr
    rw [List.mem_range'_1] at hr2
    refine ⟨mem_allCells_iff.mpr ⟨⟨hr2.1.1, by omega⟩, hcol.1, by omega⟩, ?_⟩
    exact of_decide_eq_true hr2.2
  next =>
    simp at he

theorem find_only_one_place_in_box_ok (g : SmGrid) :
    ∀ a ∈ find_only_one_place_in_box g, actionOk g a := by
  intro a ha
  unfold find_only_one_place_in_box at ha
  obtain ⟨b, hb, ha2⟩ := List.mem_flatMap.mp ha
  obtain ⟨p, hp, he⟩ := List.mem_filterMap.mp ha2
  cases hs : theSingle (g.grid p) with
  | none =>
    rw [hs] at he
    simp at he
  | some v =>
    rw [hs] at he
    simp only [Option.map_some'] at he
    injection he with he
    subst he
    have hbb := mem_boxes_bounds hb
    exact ⟨box_cells_sub hbb.1 hbb.2.1 hbb.2.2.1 hbb.2.2.2 p hp, theSingle_mem hs⟩

theorem find_digits_in_one_box_row_ok (g : SmGrid) :
    ∀ a ∈ find_digits_in_one_box_row g, actionOk g a := by
  intro a ha
  unfold find_digits_in_one_box_row at ha
  obtain ⟨b, hb, ha2⟩ := List.mem_flatMap.mp ha
  obtain ⟨d, hd, ha3⟩ := List.mem_flatMap.mp ha2
  have hbb := mem_boxes_bounds hb
  split at ha3
  next row heq =>
    obtain ⟨col, hcol, he⟩ := List.mem_filterMap.mp ha3
    rw [List.mem_range'_1] at hcol
    split at he
    · simp at he
    split at he
    next h2 =>
      injection he with he
      subst he
      have hrowm : row ∈ box_cell_axes b.1 := by
        have hmem : row ∈ (box_cell_axes b.1).filter
            (fun row => (box_cell_axes b.2).any (fun col => decide (d ∈ g.grid (row, col)))) := by
          rw [heq]
          exact List.mem_cons_self _ _
        exact (List.mem_filter.mp hmem).1
      have hrb := mem_box_cell_axes_bounds hbb.1 hbb.2.1 hrowm
      exact ⟨mem_allCells_iff.mpr ⟨hrb, hcol.1, by omega⟩, h2⟩
    next =>
      simp at he
  next =>
    exact absurd ha3 (List.not_mem_nil a)

theorem find_digits_in_one_box_col_ok (g : SmGrid) :
    ∀ a ∈ find_digits_in_one_box_col g, actionOk g a := by
  intro a ha
  unfold find_digits_in_one_box_col at ha
  obtain ⟨b, hb, ha2⟩ := List.mem_flatMap.mp ha
  obtain ⟨d, hd, ha3⟩ := List.mem_flatMap.mp ha2
  have hbb := mem_boxes_bounds hb
  split at ha3
  next col heq =>
    obtain ⟨row, hrow, he⟩ := List.mem_filterMap.mp ha3
    rw [List.mem_range'_1] at hrow
    split at he
    · simp at he
    split at he
    next h2 =>
      injection he with he
      subst he
      have hcolm : col ∈ box_cell_axes b.2 := by
        have hmem : col ∈ (box_cell_axes b.2).filter
            (fun col => (box_cell_axes b.1).any (fun row => decide (d ∈ g.grid (row, col)))) := by
          rw [heq]
          exact List.mem_cons_self _ _
        exact (List.mem_filter.mp hmem).1
      have hcb := mem_box_cell_axes_bounds hbb.2.2.1 hbb.2.2.2 hcolm
      exact ⟨mem_allCells_iff.mpr ⟨⟨hrow.1, by omega⟩, hcb⟩, h2⟩
    next =>
      simp at he
  next =>
    exact absurd ha3 (List.not_mem_nil a)

theorem find_subsets_in_ok (g : SmGrid) (cells : List Cell)
    (hcells : ∀ p ∈ cells, p ∈ allCells) :
    ∀ act ∈ find_subsets_in g cells, actionOk g act := by
  intro act hact
  unfold find_subsets_in at hact
  dsimp only at hact
  split at hact
  · exact absurd hact (List.not_mem_nil act)
  obtain ⟨fs, hfs, hbody⟩ := List.mem_flatMap.mp hact
  obtain ⟨a, b⟩ := fs
  dsimp only at hbody
  split at hbody
  case isFalse => exact absurd hbody (List.not_mem_nil act)
  case isTrue hcond =>
    obtain ⟨p1, p2, hl⟩ := two_of_card_eq_two hcond
    rw [hl] at hbody
    have hp1 : p1 ∈ (locations_for g a cells ∩ locations_for g b cells).filter
        (fun p => ({a, b} : Finset ℕ) ⊆ g.grid p) := by
      rw [← mem_cellList, hl]
      exact List.mem_cons_self _ _
    have hp2 : p2 ∈ (locations_for g a cells ∩ locations_for g b cells).filter
        (fun p => ({a, b} : Finset ℕ) ⊆ g.grid p) := by
      rw [← mem_cellList, hl]
      simp
    have hp1c : p1 ∈ cells :=
      (mem_locations_for.mp (Finset.mem_inter.mp (Finset.mem_filter.mp hp1).1).1).1
    have hp2c : p2 ∈ cells :=
      (mem_locations_for.mp (Finset.mem_inter.mp (Finset.mem_filter.mp hp2).1).1).1
    rcases List.mem_append.mp hbody with h | h
    · split at h
      case isFalse => exact absurd h (List.not_mem_nil act)
      split at h
      case isFalse => exact absurd h (List.not_mem_nil act)
      rcases List.mem_append.mp h with h3 | h3
      · obtain ⟨p, hpmem, hpe⟩ := List.mem_map.mp h3
        subst hpe
        have hpd := Finset.mem_sdiff.mp (mem_cellList.mp hpmem)
        obtain ⟨hpc, hpa⟩ := mem_locations_for.mp hpd.1
        exact ⟨hcells p hpc, hpa⟩
      · obtain ⟨p, hpmem, hpe⟩ := List.mem_map.mp h3
        subst hpe
        have hpd := Finset.mem_sdiff.mp (mem_cellList.mp hpmem)
        obtain ⟨hpc, hpa⟩ := mem_locations_for.mp hpd.1
        exact ⟨hcells p hpc, hpa⟩
    · split at h
      case isFalse => exact absurd h (List.not_mem_nil act)
      rcases List.mem_append.mp h with h3 | h3
      · obtain ⟨v, hvmem, hve⟩ := List.mem_map.mp h3
        subst hve
        have hvd := Finset.mem_sdiff.mp (mem_natList.mp hvmem)
        exact ⟨hcells p1 hp1c, hvd.1⟩
      · obtain ⟨v, hvmem, hve⟩ := List.mem_map.mp h3
        subst hve
        have hvd := Finset.mem_sdiff.mp (mem_natList.mp hvmem)
        exact ⟨hcells p2 hp2c, hvd.1⟩

theorem find_subsets_in_row_ok (g : SmGrid) :
    ∀ a ∈ find_subsets_in_row g, actionOk g a := by
  intro a ha
  unfold find_subsets_in_row at ha
  obtain ⟨row, hrow, ha2⟩ := List.mem_flatMap.mp ha
  rw [List.mem_range'_1] at hrow
  refine find_subsets_in_ok g (rowCells row) ?_ a ha2
  intro p hp
  unfold rowCells at hp
  obtain ⟨c, hc, rfl⟩ := List.mem_map.mp hp
  rw [List.mem_range'_1] at hc
  exact mem_allCells_iff.mpr ⟨⟨hrow.1, by omega⟩, hc.1, by omega⟩

theorem find_subsets_in_col_ok (g : SmGrid) :
    ∀ a ∈ find_subsets_in_col g, actionOk g a := by
  intro a ha
  unfold find_subsets_in_col at ha
  obtain ⟨col, hcol, ha2⟩ := List.mem_flatMap.mp ha
  rw [List.mem_range'_1] at hcol
  refine find_subsets_in_ok g (colCells col) ?_ a ha2
  intro p hp
  unfold colCells at hp
  obtain ⟨r, hr, rfl⟩ := List.mem_map.mp hp
  rw [List.mem_range'_1] at hr
  exact mem_allCells_iff.mpr ⟨⟨hr.1, by omega⟩, hcol.1, by omega⟩

theorem find_subsets_in_box_ok (g : SmGrid) :
    ∀ a ∈ find_subsets_in_box g, actionOk g a := by
  intro a ha
  unfold find_subsets_in_box at ha
  obtain ⟨b, hb, ha2⟩ := List.mem_flatMap.mp ha
  have hbb := mem_boxes_bounds hb
  exact find_subsets_in_ok g (box_cells b)
    (box_cells_sub hbb.1 hbb.2.1 hbb.2.2.1 hbb.2.2.2) a ha2

theorem head?_mem {l : List Action} {a : Action} (h : l.head? = some a) : a ∈ l := by
  cases l with
  | nil => simp at h
  | cons x t =>
    simp at h
    subst h
    exact List.mem_cons_self _ _

theorem findSome?_eq_some {l : List (List Action)} {b : Action} :
    l.findSome? List.head? = some b → ∃ x ∈ l, x.head? = some b := by
  induction l with
  | nil =>
    intro h
    simp [List.findSome?_nil] at h
  | cons x t ih =>
    intro h
    cases hfx : x.head? with
    | some y =>
      simp only [List.findSome?_cons, hfx] at h
      exact ⟨x, List.mem_cons_self _ _, hfx.trans h⟩
    | none =>
      simp only [List.findSome?_cons, hfx] at h
      obtain ⟨z, hz, he⟩ := ih h
      exact ⟨z, List.mem_cons_of_mem _ hz, he⟩

theorem firstAction_ok {g : SmGrid} {a : Action} (h : firstAction g = some a) :
    actionOk g a := by
  unfold firstAction at h
  obtain ⟨l, hl, hhead⟩ := findSome?_eq_some h
  have ha : a ∈ l := head?_mem hhead
  unfold strategyLists at hl
  simp only [List.mem_cons, List.not_mem_nil, or_false] at hl
  rcases hl with rfl | rfl | rfl | rfl | rfl | rfl | rfl | rfl | rfl
  · exact find_only_one_digit_in_cell_ok g a ha
  · exact find_only_one_place_in_row_ok g a ha
  · exact find_only_one_place_in_col_ok g a ha
  · exact find_only_one_place_in_box_ok g a ha
  · exact find_digits_in_one_box_row_ok g a ha
  · exact find_digits_in_one_box_col_ok g a ha
  · exact find_subsets_in_row_ok g a ha
  · exact find_subsets_in_col_ok g a ha
  · exact find_subsets_in_box_ok g a ha

theorem sum_card_update (f : Cell → Finset ℕ) (p : Cell) (s : Finset ℕ) (hp : p ∈ allCells) :
    (∑ q ∈ allCells, (Function.update f p s q).card) + (f p).card
      = (∑ q ∈ allCells, (f q).card) + s.card := by
  have hsplit : ∀ (h : Cell → Finset ℕ), ∑ q ∈ allCells, (h q).card
      = (h p).card + ∑ q ∈ allCells.erase p, (h q).card := fun h =>
    (Finset.add_sum_erase allCells (fun q => (h q).card) hp).symm
  rw [hsplit (Function.update f p s), hsplit f]
  have h1 : Function.update f p s p = s := Function.update_same p s f
  have h2 : ∑ q ∈ allCells.erase p, (Function.update f p s q).card
      = ∑ q ∈ allCells.erase p, (f q).card := by
    apply Finset.sum_congr rfl
    intro q hq
    rw [Function.update_noteq (Finset.ne_of_mem_erase hq)]
  rw [h1, h2]
  omega

theorem candCount_updateGrid (g : SmGrid) (p : Cell) (s : Finset ℕ) (hp : p ∈ allCells) :
    candCount (updateGrid g p s) + (g.grid p).card = candCount g + s.card :=
  sum_card_update g.grid p s hp

theorem placeLoop_candCount (v : ℕ) : ∀ (l : List Cell) (g g' : SmGrid),
    (∀ p ∈ l, p ∈ allCells) → placeLoop v g l = .ok g' →
    candCount g' ≤ candCount g := by
  intro l
  induction l with
  | nil =>
    intro g g' _ h
    injection h with h
    subst h
    exact le_refl _
  | cons p ps ih =>
    intro g g' hmem h
    unfold placeLoop at h
    split at h
    · exact absurd h (by simp)
    split at h
    · exact absurd h (by simp)
    have hle := ih _ _ (fun q hq => hmem q (List.mem_cons_of_mem _ hq)) h
    have hup := candCount_updateGrid g p ((g.grid p).erase v) (hmem p (List.mem_cons_self _ _))
    have hee : ((g.grid p).erase v).card ≤ (g.grid p).card := Finset.card_erase_le
    omega

theorem affected_sub {r c : ℕ} (hr1 : 1 ≤ r) (hr9 : r ≤ 9) (hc1 : 1 ≤ c) (hc9 : c ≤ 9) :
    ∀ p ∈ affected_positions r c, p ∈ allCells := by
  intro p hp
  unfold affected_positions at hp
  rcases List.mem_append.mp hp with hp | hp
  · rcases List.mem_append.mp hp with hp | hp
    · obtain ⟨rr, hrr, rfl⟩ := List.mem_map.mp hp
      have := (List.mem_filter.mp hrr).1
      rw [List.mem_range'_1] at this
      exact mem_allCells_iff.mpr ⟨⟨this.1, by omega⟩, hc1, hc9⟩
    · obtain ⟨cc, hcc, rfl⟩ := List.mem_map.mp hp
      have := (List.mem_filter.mp hcc).1
      rw [List.mem_range'_1] at this
      exact mem_allCells_iff.mpr ⟨⟨hr1, hr9⟩, this.1, by omega⟩
  · have hpb := (List.mem_filter.mp hp).1
    refine box_cells_sub ?_ ?_ ?_ ?_ p hpb <;> unfold box_position <;> dsimp only <;> omega

theorem place_ok_decrease {g g' : SmGrid} {r c v : ℕ}
    (hcell : ((r, c) : Cell) ∈ allCells) (hv : v ∈ g.grid (r, c))
    (h : place g r c v = .ok g') : candCount g' < candCount g := by
  unfold place at h
  have hb := mem_allCells_iff.mp hcell
  have hmem := affected_sub hb.1.1 hb.1.2 hb.2.1 hb.2.2
  have hle := placeLoop_candCount v (affected_positions r c) _ g' hmem h
  have h0 := sum_card_update g.grid (r, c) ∅ hcell
  have hpos : 0 < (g.grid (r, c)).card := Finset.card_pos.mpr ⟨v, hv⟩
  simp only [Finset.card_empty] at h0
  have hle2 : candCount g' ≤ ∑ q ∈ allCells, (Function.update g.grid (r, c) ∅ q).card := hle
  have hgc : candCount g = ∑ q ∈ allCells, (g.grid q).card := rfl
  omega

theorem perform_decrease {g g' : SmGrid} {a : Action} (hok : actionOk g a)
    (h : a.perform g = .ok g') : candCount g' < candCount g := by
  cases a with
  | Place r c v =>
    obtain ⟨h1, h2⟩ := hok
    exact place_ok_decrease h1 h2 h
  | Remove r c v =>
    obtain ⟨h1, h2⟩ := hok
    have h3 : remove g r c v = .ok g' := h
    unfold remove at h3
    rw [if_pos h2] at h3
    injection h3 with h3
    subst h3
    have hup := candCount_updateGrid g (r, c) ((g.grid (r, c)).erase v) h1
    have hcard := Finset.card_erase_of_mem h2
    have hpos : 0 < (g.grid (r, c)).card := Finset.card_pos.mpr ⟨v, h2⟩
    omega

theorem findFuel_terminates : ∀ (n : ℕ) (g : SmGrid), candCount g < n →
    (findFuel n g).isSome = true ∧
    ∀ g', findFuel n g = some (.ok g') → firstAction g' = none := by
  intro n
  induction n with
  | zero =>
    intro g h
    exact absurd h (Nat.not_lt_zero _)
  | succ n ih =>
    intro g hcnt
    cases hfa : firstAction g with
    | none =>
      constructor
      · simp only [findFuel, hfa, Option.isSome_some]
      · intro g' h
        simp only [findFuel, hfa, Option.some.injEq] at h
        injection h with h
        subst h
        exact hfa
    | some a =>
      have hok := firstAction_ok hfa
      cases hp : a.perform g with
      | error e =>
        constructor
        · simp only [findFuel, hfa, hp, Option.isSome_some]
        · intro g' h
          simp only [findFuel, hfa, hp, Option.some.injEq] at h
          exact absurd h (by simp)
      | ok g1 =>
        have hdec := perform_decrease hok hp
        have hrec := ih g1 (by omega)
        constructor
        · simp only [findFuel, hfa, hp]
          exact hrec.1
        · intro g' h
          simp only [findFuel, hfa, hp] at h
          exact hrec.2 g' h

end Smarter

/-- Claim C8: the deductive driver loop terminates.  With fuel
`candCount g + 1` the fuelled version of `SudokuGrid.find` never runs out
(`isSome`); it returns the grid unchanged as soon as a full pass over the
nine strategies yields no action; a normal return means no strategy yields
an action in the final state; and every applied `Place`/`Remove` action
strictly decreases the total number of candidates, the loop's termination
measure. -/
theorem claim8 (g : Smarter.SmGrid) :
    (Smarter.findFuel (Smarter.candCount g + 1) g).isSome = true ∧
    (Smarter.firstAction g = none →
      Smarter.findFuel (Smarter.candCount g + 1) g = some (.ok g)) ∧
    (∀ g', Smarter.findFuel (Smarter.candCount g + 1) g = some (.ok g') →
      Smarter.firstAction g' = none) ∧
    (∀ a g', Smarter.firstAction g = some a → a.perform g = .ok g' →
      Smarter.candCount g' < Smarter.candCount g) := by
  refine ⟨(Smarter.findFuel_terminates _ g (by omega)).1, ?_,
    (Smarter.findFuel_terminates _ g (by omega)).2, ?_⟩
  · intro h
    simp only [Smarter.findFuel, h]
  · intro a g' hfa hp
    exact Smarter.perform_decrease (Smarter.firstAction_ok hfa) hp

set_option maxRecDepth 1000000 in
set_option maxHeartbeats 2000000 in
/-- Claim C8 (witness): the empty grid is a fixed point the loop exits at
once, and performing the `Place(1, 1, 5)` that strategy 1 yields on
`singletonExample` strictly decreases the candidate count. -/
theorem claim8_witness :
    Smarter.firstAction Smarter.emptyExample = none ∧
    Smarter.candCount Smarter.placedSingleton < Smarter.candCount Smarter.singletonExample := by
  constructor
  · exact (claim8 Smarter.emptyExample).2.2.1 Smarter.emptyExample (by rfl)
  · exact (claim8 Smarter.singletonExample).2.2.2 (Smarter.Action.Place 1 1 5)
      Smarter.placedSingleton (by rfl) (by rfl)

/-! ### Claim C1: validity of yielded solutions -/

set_option maxRecDepth 100000 in
/-- Claim C1 (refuted, code bug): `subsq_range` rounds with `ceil` where the
docstring promises the whole block (`[0, 1, 2]` for index 0), so for an
axis index divisible by 3 the range is empty.  Hence the distinct cells
(0, 1) and (1, 0) of the top-left subsquare do not affect each other in
either direction, and a `solutions` enumeration that assigns both cells
(yielding exactly when `remaining_cells` is empty) yields a grid holding 6
at both — not a valid solution. -/
theorem claim1 :
    Search.subsq_range 0 = [] ∧
    Search.sameSubsquare (0, 1) (1, 0) ∧ ((0, 1) : Cell) ≠ (1, 0) ∧
    ((1, 0) : Cell) ∉ Search.other_cells_affected (0, 1) ∧
    ((0, 1) : Cell) ∉ Search.other_cells_affected (1, 0) ∧
    (∃ s ∈ (Search.solutions [(0, 1), (1, 0)] (Search.mkGrid [] [])).1,
      Search.cmView s (0, 1) = {6} ∧ Search.cmView s (1, 0) = {6}) := by
  decide
